import Mathlib

/-!
# lbcrawler: session-affine load balancer (`lb/lb.go`)

A shallow embedding of `lb/lb.go` and theorems about it.

Modelling conventions.

* A Go `map[string]*T` is an association list `List (String × T)`; the three
  map operations used by the source (`m[k]`, `m[k] = v`, `delete(m, k)`) are
  `mapGet`, `mapSet`, `mapDelete`.  The order in which `range` visits a map is
  unspecified, so the sweep takes the visiting order as an argument.
* A buffered channel is its buffer (oldest element first) with its capacity.
  A send on a full channel and a receive on an empty one block; a call that
  blocks is reported as `Completion.blocked` together with the state in
  which it hangs.
* A `*DownStream` handed around by the source is always an object stored in
  `cache`; it is represented by the key it is stored under, and
  `down.used = b` is `setUsed`.
* A `*UpstreamConfig` is `UpstreamPtr`: the position of the object in
  `srv.Upstreams` (its identity) together with the immutable object.
* Clock and random readings (`time.Now()`, `rand.Int63()`) and the outcomes of
  the network steps are arguments.  Whether `http.NewRequest` succeeds is such
  an outcome; the host of the URL it builds is computed by `urlHost`.  Times and durations are integer
  nanosecond counts.  Logging (`dlog`) has no effect on the state and is left
  out, except where evaluating a log argument can fault.
-/

namespace lb

/-! ## Go maps -/

/-- The map read `m[k]` (with the `ok` flag as `Option`). -/
def mapGet {β : Type} : List (String × β) → String → Option β
  | [], _ => none
  | e :: m, k => if e.1 = k then some e.2 else mapGet m k

/-- The builtin `delete(m, k)`. -/
def mapDelete {β : Type} (m : List (String × β)) (k : String) : List (String × β) :=
  m.filter (fun e => !decide (e.1 = k))

/-- The assignment `m[k] = v`: an entry already stored under `k` is replaced. -/
def mapSet {β : Type} (m : List (String × β)) (k : String) (v : β) : List (String × β) :=
  mapDelete m k ++ [(k, v)]

/-- The keys of a map. -/
def mapKeys {β : Type} (m : List (String × β)) : List String :=
  m.map Prod.fst

/-! ## Buffered channels -/

/-- Outcome of a call that may block forever. -/
inductive Completion (α : Type) where
  | returned (a : α)
  | blocked
  deriving DecidableEq, Repr

/-- A buffered channel: `buf` holds the queued elements, oldest first. -/
structure Chan (α : Type) where
  buf : List α
  cap : Nat
  deriving DecidableEq, Repr

/-- The call `make(chan T, n)`. -/
def Chan.make {α : Type} (n : Nat) : Chan α :=
  { buf := [], cap := n }

/-- The send `c <- x`; `none` when the buffer is full (the sender blocks). -/
def Chan.send {α : Type} (c : Chan α) (x : α) : Option (Chan α) :=
  if c.buf.length < c.cap then some { c with buf := c.buf ++ [x] } else none

/-- The receive `<-c`; `none` when the buffer is empty (the receiver blocks). -/
def Chan.recv {α : Type} (c : Chan α) : Option (α × Chan α) :=
  match c.buf with
  | [] => none
  | x :: xs => some (x, { c with buf := xs })

/-! ## Time -/

/-- The constant `time.Second`, in nanoseconds. -/
def Second : Int := 1000000000

/-- Largest `time.Duration` (`1<<63 - 1`). -/
def maxDuration : Int := 9223372036854775807

/-- Smallest `time.Duration` (`-1 << 63`). -/
def minDuration : Int := -9223372036854775808

/-- The method `t.Sub(u)`: the difference, saturated to the range of `Duration`. -/
def timeSub (t u : Int) : Int :=
  if t - u > maxDuration then maxDuration
  else if t - u < minDuration then minDuration
  else t - u

/-- The test `d.Seconds() > c` for a whole number `c` of seconds.  `Seconds()` is
`float64(d / Second) + float64(d % Second) / 1e9` (truncated division); the value is
kept as its whole and fractional part, which for the thresholds of this program
(120 and 300) decides the floating-point comparison exactly. -/
def secondsGt (d : Int) (c : Int) : Bool :=
  decide (Int.tdiv d Second > c) || (decide (Int.tdiv d Second = c) && decide (Int.tmod d Second > 0))

/-! ## Data model -/

/-- Modelled from the spec: the type `UpstreamConfig`, declared outside `lb.go`: an
immutable value holding the address of one backend; `lb.go` only reads `Addr`. -/
structure UpstreamConfig where
  Addr : String
  deriving DecidableEq, Repr

/-- Modelled from the spec: the type `ServiceConfig`, declared outside `lb.go`: the static
list of upstreams of one virtual host; `lb.go` only reads `Upstreams`, a slice of pointers
to the (pairwise distinct) `UpstreamConfig` objects decoded from the configuration. -/
structure ServiceConfig where
  Upstreams : List UpstreamConfig
  deriving DecidableEq, Repr

/-- A `*UpstreamConfig`: `idx` is the position of the object in `srv.Upstreams`. -/
structure UpstreamPtr where
  idx : Nat
  obj : UpstreamConfig
  deriving DecidableEq, Repr

/-- The struct `DownStream` (lines 14-19). -/
structure DownStream where
  up : UpstreamPtr
  used : Bool
  sid : String
  startTime : Int
  deriving DecidableEq, Repr

/-- The struct `ServiceHandler` (lines 21-26); the ticker only drives the sweep. -/
structure ServiceHandler where
  srv : ServiceConfig
  freeUpstreams : Chan UpstreamPtr
  cache : List (String × DownStream)
  deriving DecidableEq, Repr

/-- The pointers ranged over by `for _, up := range srv.Upstreams`. -/
def ServiceConfig.ptrs (srv : ServiceConfig) : List UpstreamPtr :=
  srv.Upstreams.enum.map (fun e => { idx := e.1, obj := e.2 })

/-- The loop of lines 35-38: send each pointer; `none` when a send blocks. -/
def sendAll (c : Chan UpstreamPtr) : List UpstreamPtr → Option (Chan UpstreamPtr)
  | [] => some c
  | up :: ups =>
    match c.send up with
    | none => none
    | some c1 => sendAll c1 ups

/-- The constructor `NewServiceHandler` (lines 28-63).  `none`: the call blocks in the
loop of lines 35-38 and never returns.  The goroutine started at line 39 is `sweep`. -/
def NewServiceHandler (srv : ServiceConfig) : Option ServiceHandler :=
  match sendAll (Chan.make 100) srv.ptrs with
  | none => none
  | some c => some { srv := srv, freeUpstreams := c, cache := [] }

/-! ## Requests -/

/-- An HTTP cookie (name and value). -/
structure Cookie where
  Name : String
  Value : String
  deriving DecidableEq, Repr

/-- The fields of `http.Request` read by the source. -/
structure Request where
  Host : String
  Method : String
  RequestURI : String
  Cookies : List Cookie
  deriving DecidableEq, Repr

/-- The method `req.Cookie(name)`: the first cookie of that name, `none` for `ErrNoCookie`. -/
def Request.Cookie (req : Request) (name : String) : Option Cookie :=
  req.Cookies.find? (fun c => decide (c.Name = name))

/-- Readings taken while a new lease is built (lines 90-94). -/
structure Env where
  unixNano : Int
  int63 : Nat
  now : Int
  deriving DecidableEq, Repr

/-- The function `randString` (lines 65-70). -/
def randString (env : Env) : String :=
  toString env.unixNano ++ "_" ++ toString env.int63

/-! ## Lease operations -/

/-- The method `closeDownstream` (lines 72-75). -/
def closeDownstream (p : ServiceHandler) (down : DownStream) : ServiceHandler × Completion Unit :=
  let p1 := { p with cache := mapDelete p.cache down.sid }
  match p1.freeUpstreams.send down.up with
  | none => (p1, .blocked)
  | some c => ({ p1 with freeUpstreams := c }, .returned ())

/-- The method `createDownstream` (lines 77-99).  The result is `none` for nil, and
otherwise the returned lease with the key under which it is cached. -/
def createDownstream (p : ServiceHandler) (req : Request) (env : Env) :
    ServiceHandler × Completion (Option (String × DownStream)) :=
  match req.Cookie "lbc_session_id" with
  | some sid =>
    match mapGet p.cache sid.Value with
    | some down =>
      match req.Cookie "lbc_close" with
      | some _ =>
        match closeDownstream p down with
        | (p1, .blocked) => (p1, .blocked)
        | (p1, .returned _) => (p1, .returned none)
      | none => (p, .returned (some (sid.Value, down)))
    | none => (p, .returned none)
  | none =>
    match p.freeUpstreams.recv with
    | none => (p, .blocked)
    | some (up, c) =>
      let down : DownStream :=
        { up := up, used := false, sid := randString env, startTime := env.now }
      ({ p with freeUpstreams := c, cache := mapSet p.cache down.sid down },
        .returned (some (down.sid, down)))

/-- The assignment `down.used = b` on the lease cached under `k`. -/
def setUsed (p : ServiceHandler) (k : String) (b : Bool) : ServiceHandler :=
  { p with cache := p.cache.map (fun e => if e.1 = k then (e.1, { e.2 with used := b }) else e) }

/-! ## Eviction sweep -/

/-- The body of the loop of lines 43-53 for one lease, at clock reading `now`: the lease
as the loop leaves it, and whether it was appended to `del`. -/
def sweepVisit (now : Int) (d : DownStream) : DownStream × Bool :=
  if d.used && secondsGt (timeSub now d.startTime) 300 then
    ({ d with used := false }, true)
  else if !d.used && secondsGt (timeSub now d.startTime) 120 then
    (d, true)
  else
    (d, false)

/-- The loop of lines 55-59 over `del`. -/
def reclaim (p : ServiceHandler) : List DownStream → ServiceHandler × Completion Unit
  | [] => (p, .returned ())
  | d :: ds =>
    let p1 := { p with cache := mapDelete p.cache d.sid }
    match p1.freeUpstreams.send d.up with
    | none => (p1, .blocked)
    | some c => reclaim { p1 with freeUpstreams := c } ds

/-- The slice `del` built by the loop of lines 43-53 when the map is visited in `order`;
`now k` is the clock reading taken while the lease under key `k` is examined. -/
def sweepDel (now : String → Int) (order : List (String × DownStream)) : List DownStream :=
  (order.filter (fun e => (sweepVisit (now e.1) e.2).2)).map
    (fun e => (sweepVisit (now e.1) e.2).1)

/-- One tick of the goroutine of lines 39-61. -/
def sweep (p : ServiceHandler) (now : String → Int) (order : List (String × DownStream)) :
    ServiceHandler × Completion Unit :=
  let p1 := { p with cache := p.cache.map (fun e => (e.1, (sweepVisit (now e.1) e.2).1)) }
  reclaim p1 (sweepDel now order)

/-! ## URLs -/

/-- The text of `s` before the first `c` (`strings.Cut`, `strings.Index`); all of `s` when
`c` does not occur. -/
def cutBefore (c : Char) (s : List Char) : List Char :=
  s.takeWhile (fun x => !decide (x = c))

/-- The text of `s` after the last `c` (`strings.LastIndex`); all of `s` when `c` does not
occur. -/
def afterLast (c : Char) (s : List Char) : List Char :=
  (s.reverse.takeWhile (fun x => !decide (x = c))).reverse

/-- The value of a hexadecimal digit (`unhex` of `net/url`). -/
def unhex (c : Char) : Nat :=
  if '0' ≤ c ∧ c ≤ '9' then c.toNat - 48
  else if 'a' ≤ c ∧ c ≤ 'f' then c.toNat - 97 + 10
  else if 'A' ≤ c ∧ c ≤ 'F' then c.toNat - 65 + 10
  else 0

/-- The result of `unescape(s, encodeHost)` of `net/url` when it succeeds: every `%XY` is
replaced by the byte it encodes. -/
def unescape : List Char → List Char
  | '%' :: a :: b :: t => Char.ofNat (16 * unhex a + unhex b) :: unescape t
  | c :: s => c :: unescape s
  | [] => []

/-- The function `removeEmptyPort` of `net/http`: a host ending in `:` loses that colon. -/
def removeEmptyPort (host : List Char) : List Char :=
  if host.getLast? = some ':' then host.dropLast else host

/-- Modelled from the Go library: the host of the URL of the request that
`http.NewRequest` builds from `rawurl`, when it succeeds, for a `rawurl` that begins with
`http://` (line 159 gives no other).  `url.Parse` cuts the fragment at the first `#`,
takes `http:` as the scheme, cuts the query at the first `?`, takes as authority the text
between `//` and the next `/` and as host the text after the last `@` of the authority,
unescaped; `NewRequest` then removes an empty port.  It is the host `client.Do` sends
the request to. -/
def urlHost (rawurl : String) : String :=
  let u := cutBefore '#' rawurl.data
  let rest := cutBefore '?' (u.drop 5)
  let authority := cutBefore '/' (rest.drop 2)
  String.mk (removeEmptyPort (unescape (afterLast '@' authority)))

/-- An upstream address that contains none of the characters `/`, `?`, `#`, `@`, `%` and
does not end in `:`. -/
def plainAddr (a : String) : Bool :=
  a.data.all (fun c => !decide (c ∈ ['/', '?', '#', '@', '%'])) &&
    !decide (a.data.getLast? = some ':')

/-- A request given to `client.Do`: the string from which `http.NewRequest` built it and the
host of its URL, to which it is sent. -/
structure UpstreamCall where
  rawurl : String
  host : String
  deriving DecidableEq, Repr

/-- The request built at line 159 for the upstream address `addr` and the request target
`uri`, as given to `client.Do` at line 165. -/
def upstreamCall (addr uri : String) : UpstreamCall :=
  { rawurl := "http://" ++ addr ++ uri, host := urlHost ("http://" ++ addr ++ uri) }

/-! ## Request handling -/

/-- The struct `LoadBalancer` (lines 101-104); the HTTP client is the environment. -/
structure LoadBalancer where
  services : List (String × ServiceHandler)
  deriving DecidableEq, Repr

/-- A call made on the `http.ResponseWriter`. -/
inductive RwCall where
  | WriteHeader (code : Nat)
  | Write (body : String)
  | SetCookie (name value : String)
  deriving DecidableEq, Repr

/-- The status line sent to the client: the first `WriteHeader` wins, and a `Write`
before any `WriteHeader` sends 200. -/
def status : List RwCall → Option Nat
  | [] => none
  | .WriteHeader c :: _ => some c
  | .Write _ :: _ => some 200
  | .SetCookie _ _ :: rw => status rw

/-- Outcomes of the input/output steps of `ServeHTTP`: `reqBodyErr` is the error of
`ioutil.ReadAll(req.Body)`, `newRequestErr` that of `http.NewRequest`, `doErr` that of
`client.Do` (`none`: no error); `respBodyNil` tells whether `resp.Body == nil`;
`respBodyErr` and `respBody` are the result of `ioutil.ReadAll(resp.Body)`. -/
structure Outcomes where
  reqBodyErr : Option String
  newRequestErr : Option String
  doErr : Option String
  respBodyNil : Bool
  respBodyErr : Option String
  respBody : String
  deriving DecidableEq, Repr

/-- How an execution of `ServeHTTP` ends. -/
inductive Exit where
  | returned
  | blocked
  | panicked
  deriving DecidableEq, Repr

/-- What an execution of `ServeHTTP` leaves behind: the state, the calls made on the
response writer, the requests given to `client.Do`, and how it ended. -/
structure ServeResult where
  lb : LoadBalancer
  rw : List RwCall
  calls : List UpstreamCall
  exit : Exit
  deriving DecidableEq, Repr

/-- The write of `*srv` through the pointer held in `p.services[host]`. -/
def LoadBalancer.store (p : LoadBalancer) (host : String) (srv : ServiceHandler) : LoadBalancer :=
  { p with services := p.services.map (fun e => if e.1 = host then (e.1, srv) else e) }

/-- The assignment `down.used = b`, for the lease cached under `k` by the handler of `host`. -/
def LoadBalancer.setUsed (p : LoadBalancer) (host k : String) (b : Bool) : LoadBalancer :=
  { p with services :=
      p.services.map (fun e => if e.1 = host then (e.1, lb.setUsed e.2 k b) else e) }

/-- The method `printError` (lines 129-136); `down` is nil (`none`) or the host and key of
a cached lease. -/
def LoadBalancer.printError (p : LoadBalancer) (rw : List RwCall) (down : Option (String × String))
    (msg : String) : LoadBalancer × List RwCall :=
  let rw1 := rw ++ [.WriteHeader 500, .Write msg]
  match down with
  | some (host, k) => (p.setUsed host k false, rw1)
  | none => (p, rw1)

/-- The lease cached under `k` by the handler of `host`. -/
def LoadBalancer.lease (p : LoadBalancer) (host k : String) : Option DownStream :=
  match mapGet p.services host with
  | none => none
  | some srv => mapGet srv.cache k

/-- Lines 152-190 of `ServeHTTP`, entered with `down` the lease cached under `k`. -/
def LoadBalancer.forward (p : LoadBalancer) (req : Request) (io : Outcomes) (k : String)
    (down : DownStream) : ServeResult :=
  let p1 := p.setUsed req.Host k true
  match io.reqBodyErr with
  | some e =>
    let r := p1.printError [] (some (req.Host, k)) ("fail to read body: " ++ e)
    { lb := r.1, rw := r.2, calls := [], exit := .returned }
  | none =>
    match io.newRequestErr with
    | some _ =>
      -- line 160 reads `req2.Method` before `err` is tested, and `req2` is nil
      { lb := p1, rw := [], calls := [], exit := .panicked }
    | none =>
      let url := upstreamCall down.up.obj.Addr req.RequestURI
      match io.doErr with
      | some e =>
        let r := p1.printError [] (some (req.Host, k)) ("call upstream failed: " ++ e)
        { lb := r.1, rw := r.2, calls := [url], exit := .returned }
      | none =>
        if io.respBodyNil then
          let r := p1.printError [] (some (req.Host, k)) "upstream resp body is nil"
          { lb := r.1, rw := r.2, calls := [url], exit := .returned }
        else
          match io.respBodyErr with
          | some e =>
            let r := p1.printError [] (some (req.Host, k)) ("read upstream body fail: " ++ e)
            { lb := r.1, rw := r.2, calls := [url], exit := .returned }
          | none =>
            { lb := p1.setUsed req.Host k false,
              rw := [.SetCookie "lbc_session_id" down.sid, .WriteHeader 200, .Write io.respBody],
              calls := [url], exit := .returned }

/-- The method `ServeHTTP` (lines 138-190). -/
def LoadBalancer.ServeHTTP (p : LoadBalancer) (req : Request) (env : Env) (io : Outcomes) :
    ServeResult :=
  match mapGet p.services req.Host with
  | none =>
    let r := p.printError [] none ("fail to get service: " ++ req.Host)
    { lb := r.1, rw := r.2, calls := [], exit := .returned }
  | some srv =>
    match createDownstream srv req env with
    | (srv1, .blocked) =>
      { lb := p.store req.Host srv1, rw := [], calls := [], exit := .blocked }
    | (srv1, .returned none) =>
      let r := (p.store req.Host srv1).printError [.WriteHeader 500] none "fail to find downstream"
      { lb := r.1, rw := r.2, calls := [], exit := .returned }
    | (srv1, .returned (some (k, down))) => (p.store req.Host srv1).forward req io k down

/-! ## Reachable states -/

/-- The states a `ServiceHandler` built for `srv` can be in: the state returned by
`NewServiceHandler`, followed by any sequence of `createDownstream` calls (any request, any
readings), `closeDownstream` calls on a cached lease, sweeps (any clock, any visiting
order of the map) and `down.used = b` assignments on a cached lease.  A call that
blocks leaves the state in which it hangs. -/
inductive Reachable (srv : ServiceConfig) : ServiceHandler → Prop where
  | init {h : ServiceHandler} : NewServiceHandler srv = some h → Reachable srv h
  | create {h : ServiceHandler} (req : Request) (env : Env) :
      Reachable srv h → Reachable srv (createDownstream h req env).1
  | close {h : ServiceHandler} (k : String) (d : DownStream) :
      Reachable srv h → mapGet h.cache k = some d → Reachable srv (closeDownstream h d).1
  | sweep {h : ServiceHandler} (now : String → Int) (order : List (String × DownStream)) :
      Reachable srv h → order.Perm h.cache → Reachable srv (sweep h now order).1
  | mark {h : ServiceHandler} (k : String) (b : Bool) :
      Reachable srv h → Reachable srv (setUsed h k b)

/-- The reachable states when every session id produced by `randString` is new, that
is, not a key of the cache at the time it is produced. -/
inductive ReachableUnique (srv : ServiceConfig) : ServiceHandler → Prop where
  | init {h : ServiceHandler} : NewServiceHandler srv = some h → ReachableUnique srv h
  | create {h : ServiceHandler} (req : Request) (env : Env) :
      ReachableUnique srv h →
      (req.Cookie "lbc_session_id" = none → mapGet h.cache (randString env) = none) →
      ReachableUnique srv (createDownstream h req env).1
  | close {h : ServiceHandler} (k : String) (d : DownStream) :
      ReachableUnique srv h → mapGet h.cache k = some d →
      ReachableUnique srv (closeDownstream h d).1
  | sweep {h : ServiceHandler} (now : String → Int) (order : List (String × DownStream)) :
      ReachableUnique srv h → order.Perm h.cache → ReachableUnique srv (sweep h now order).1
  | mark {h : ServiceHandler} (k : String) (b : Bool) :
      ReachableUnique srv h → ReachableUnique srv (setUsed h k b)

/-- The invariant of the reachable states. -/
structure Inv (srv : ServiceConfig) (h : ServiceHandler) : Prop where
  srv_eq : h.srv = srv
  cap_eq : h.freeUpstreams.cap = 100
  small : srv.Upstreams.length ≤ 100
  keys_nodup : (mapKeys h.cache).Nodup
  sid_eq : ∀ e ∈ h.cache, e.2.sid = e.1
  ups_nodup : (h.freeUpstreams.buf ++ h.cache.map (fun e => e.2.up)).Nodup
  ups_mem : ∀ u ∈ h.freeUpstreams.buf ++ h.cache.map (fun e => e.2.up), u ∈ srv.ptrs

/-! ## Concrete configurations, requests and states -/

/-- A configuration with the two upstreams A and B. -/
def cfgAB : ServiceConfig :=
  { Upstreams := [{ Addr := "10.0.0.1:80" }, { Addr := "10.0.0.2:80" }] }

/-- The pointer to upstream A of `cfgAB`. -/
def upA : UpstreamPtr := { idx := 0, obj := { Addr := "10.0.0.1:80" } }

/-- The pointer to upstream B of `cfgAB`. -/
def upB : UpstreamPtr := { idx := 1, obj := { Addr := "10.0.0.2:80" } }

/-- The handler `NewServiceHandler` builds for `cfgAB`. -/
def hAB : ServiceHandler :=
  { srv := cfgAB, freeUpstreams := { buf := [upA, upB], cap := 100 }, cache := [] }

/-- A request without cookies. -/
def reqNew : Request :=
  { Host := "svc.local", Method := "GET", RequestURI := "/page", Cookies := [] }

/-- A request carrying the session cookie `v`. -/
def reqSid (v : String) : Request :=
  { Host := "svc.local", Method := "GET", RequestURI := "/page",
    Cookies := [{ Name := "lbc_session_id", Value := v }] }

/-- A request carrying the session cookie `v` and the cookie `lbc_close`. -/
def reqClose (v : String) : Request :=
  { Host := "svc.local", Method := "GET", RequestURI := "/page",
    Cookies := [{ Name := "lbc_session_id", Value := v }, { Name := "lbc_close", Value := "1" }] }

/-- Readings giving the session id `1_1` and the start time 1000 ns. -/
def env1 : Env := { unixNano := 1, int63 := 1, now := 1000 }

/-- Readings giving the session id `2_2` and the start time 2000 ns. -/
def env2 : Env := { unixNano := 2, int63 := 2, now := 2000 }

/-- The state of `hAB` after one first-contact request with readings `env1`. -/
def hA1 : ServiceHandler :=
  { srv := cfgAB, freeUpstreams := { buf := [upB], cap := 100 },
    cache := [("1_1", { up := upA, used := false, sid := "1_1", startTime := 1000 })] }

/-- The state of `hAB` after two first-contact requests that were given the same session id. -/
def hDup : ServiceHandler :=
  { srv := cfgAB, freeUpstreams := { buf := [], cap := 100 },
    cache := [("1_1", { up := upB, used := false, sid := "1_1", startTime := 1000 })] }


/-- The state of `hA1` after a second first-contact request with readings `env2`, the
second lease being marked in use. -/
def hA1B2 : ServiceHandler :=
  { srv := cfgAB, freeUpstreams := { buf := [], cap := 100 },
    cache := [("1_1", { up := upA, used := false, sid := "1_1", startTime := 1000 }),
              ("2_2", { up := upB, used := true, sid := "2_2", startTime := 2000 })] }

/-- A configuration with 101 upstreams. -/
def cfg101 : ServiceConfig :=
  { Upstreams := List.replicate 101 { Addr := "10.0.0.1:80" } }

/-- The lease `hA1` caches under `1_1`. -/
def leaseA : DownStream := { up := upA, used := false, sid := "1_1", startTime := 1000 }

/-- A load balancer serving `svc.local` with the handler in state `hAB`. -/
def lbAB : LoadBalancer := { services := [("svc.local", hAB)] }

/-- A load balancer serving `svc.local` with the handler in state `hA1`. -/
def lbA1 : LoadBalancer := { services := [("svc.local", hA1)] }

/-- Outcomes in which every input/output step succeeds and the upstream answers `ok`. -/
def ioOk : Outcomes :=
  { reqBodyErr := none, newRequestErr := none, doErr := none, respBodyNil := false,
    respBodyErr := none, respBody := "ok" }

/-- The cache without the `used` flags: each key with the upstream, `sid` and `startTime`
of its lease. -/
def bindings (h : ServiceHandler) : List (String × UpstreamPtr × String × Int) :=
  h.cache.map (fun e => (e.1, e.2.up, e.2.sid, e.2.startTime))

/-- Consecutive executions of `ServeHTTP`, one per request (with its readings and
outcomes), each on the state left by the one before; the results in order. -/
def serveAll (p : LoadBalancer) : List (Request × Env × Outcomes) → List ServeResult
  | [] => []
  | x :: rs => p.ServeHTTP x.1 x.2.1 x.2.2 :: serveAll (p.ServeHTTP x.1 x.2.1 x.2.2).lb rs

/-- Two requests of the session `1_1`, the second with a failing upstream call. -/
def rsA : List (Request × Env × Outcomes) :=
  [(reqSid "1_1", env2, ioOk), (reqSid "1_1", env2, { ioOk with doErr := some "refused" })]

/-- The scenario of two first-contact requests followed by a request of the first
session. -/
def scenario : List (Request × Env × Outcomes) :=
  [(reqNew, env1, ioOk), (reqNew, env2, ioOk), (reqSid "1_1", env2, ioOk)]

/-- The request `GET *` of the session `1_1`: `http.NewRequest` is given the URL
`http://10.0.0.1:80*`, which does not parse (invalid port). -/
def reqStar : Request :=
  { Host := "svc.local", Method := "GET", RequestURI := "*",
    Cookies := [{ Name := "lbc_session_id", Value := "1_1" }] }

/-- The request `GET *` without cookies. -/
def reqStarNew : Request :=
  { Host := "svc.local", Method := "GET", RequestURI := "*", Cookies := [] }

/-- Outcomes in which the request body is read and `http.NewRequest` returns an error. -/
def ioBadURL : Outcomes :=
  { reqBodyErr := none, newRequestErr := some "invalid port", doErr := none,
    respBodyNil := false, respBodyErr := none, respBody := "" }

/-- The request of the session `1_1` with the request target `a:@evil.example`. -/
def reqEvil : Request :=
  { Host := "svc.local", Method := "GET", RequestURI := "a:@evil.example",
    Cookies := [{ Name := "lbc_session_id", Value := "1_1" }] }

/-- Outcomes in which reading the request body fails. -/
def ioBodyErr : Outcomes :=
  { reqBodyErr := some "unexpected EOF", newRequestErr := none, doErr := none,
    respBodyNil := false, respBodyErr := none, respBody := "" }

/-! # Theorems -/

/-! ## Maps -/

theorem mapGet_of_mem {β : Type} {m : List (String × β)} (hn : (mapKeys m).Nodup)
    {k : String} {v : β} (hm : (k, v) ∈ m) : mapGet m k = some v := by
  induction m with
  | nil => cases hm
  | cons e m ih =>
    simp only [mapKeys, List.map_cons, List.nodup_cons] at hn
    rcases List.mem_cons.1 hm with rfl | hm
    · simp [mapGet]
    · have hne : e.1 ≠ k := by
        intro he
        exact hn.1 (he ▸ List.mem_map_of_mem Prod.fst hm)
      simp [mapGet, hne, ih hn.2 hm]

theorem mem_of_mapGet {β : Type} {m : List (String × β)} {k : String} {v : β}
    (hg : mapGet m k = some v) : (k, v) ∈ m := by
  induction m with
  | nil => simp [mapGet] at hg
  | cons e m ih =>
    by_cases he : e.1 = k
    · simp [mapGet, he] at hg
      subst he; subst hg
      exact List.mem_cons_self _ _
    · simp [mapGet, he] at hg
      exact List.mem_cons_of_mem _ (ih hg)

theorem mapGet_eq_none_iff {β : Type} {m : List (String × β)} {k : String} :
    mapGet m k = none ↔ k ∉ mapKeys m := by
  induction m with
  | nil => simp [mapGet, mapKeys]
  | cons e m ih =>
    by_cases he : e.1 = k
    · simp [mapGet, mapKeys, he]
    · have hk : ¬ k = e.1 := fun h => he h.symm
      simp only [mapKeys] at ih
      simp [mapGet, mapKeys, he, hk, ih]

theorem mapGet_mapDelete {β : Type} (m : List (String × β)) (k k1 : String) :
    mapGet (mapDelete m k) k1 = if k1 = k then none else mapGet m k1 := by
  induction m with
  | nil => simp [mapGet, mapDelete]
  | cons e m ih =>
    simp only [mapDelete] at ih
    by_cases he : e.1 = k
    · by_cases hk : k1 = k
      · simpa [mapDelete, List.filter_cons, he, hk] using ih
      · have h1 : ¬ e.1 = k1 := fun h => hk (h ▸ he)
        have h2 : ¬ k = k1 := fun h => hk h.symm
        simpa [mapDelete, List.filter_cons, he, hk, mapGet, h1, h2] using ih
    · by_cases hk : k1 = k
      · have h1 : ¬ e.1 = k1 := fun h => he (h.trans hk)
        simpa [mapDelete, List.filter_cons, he, hk, mapGet, h1] using ih
      · simp [mapDelete, List.filter_cons, he, hk, mapGet, ih]

theorem mapKeys_mapDelete_sublist {β : Type} (m : List (String × β)) (k : String) :
    (mapDelete m k).Sublist m :=
  List.filter_sublist m

theorem mem_mapDelete {β : Type} {m : List (String × β)} {k : String} {e : String × β} :
    e ∈ mapDelete m k ↔ e ∈ m ∧ e.1 ≠ k := by
  simp [mapDelete, List.mem_filter]

theorem mapDelete_of_not_mem {β : Type} {m : List (String × β)} {k : String}
    (hk : mapGet m k = none) : mapDelete m k = m := by
  rw [mapGet_eq_none_iff] at hk
  apply List.filter_eq_self.2
  intro e he
  have : e.1 ≠ k := fun h => hk (h ▸ List.mem_map_of_mem Prod.fst he)
  simp [this]

theorem mapGet_mapSet {β : Type} (m : List (String × β)) (k k1 : String) (v : β) :
    mapGet (mapSet m k v) k1 = if k1 = k then some v else mapGet m k1 := by
  have happ : ∀ (l : List (String × β)),
      mapGet (l ++ [(k, v)]) k1 = match mapGet l k1 with
        | some x => some x
        | none => if k = k1 then some v else none := by
    intro l
    induction l with
    | nil => simp [mapGet]
    | cons e l ih =>
      by_cases he : e.1 = k1
      · simp [mapGet, he]
      · simp [mapGet, he, ih]
  rw [mapSet, happ, mapGet_mapDelete]
  by_cases hk : k1 = k
  · simp [hk]
  · have : ¬ k = k1 := fun h => hk h.symm
    simp only [hk, this, if_false]
    cases mapGet m k1 <;> rfl

/-! ## Channels and construction -/

theorem sendAll_eq_some (ups : List UpstreamPtr) (c c1 : Chan UpstreamPtr)
    (hc : c.buf.length ≤ c.cap) :
    sendAll c ups = some c1 ↔
      c.buf.length + ups.length ≤ c.cap ∧ c1 = { buf := c.buf ++ ups, cap := c.cap } := by
  induction ups generalizing c with
  | nil =>
    cases c
    simp only [sendAll, Option.some.injEq, List.length_nil, add_zero, List.append_nil]
    constructor
    · intro h; exact ⟨hc, h.symm⟩
    · intro h; exact h.2.symm
  | cons up ups ih =>
    by_cases hlt : c.buf.length < c.cap
    · have hc1 : ({ c with buf := c.buf ++ [up] } : Chan UpstreamPtr).buf.length ≤
          ({ c with buf := c.buf ++ [up] } : Chan UpstreamPtr).cap := by
        simp only [List.length_append, List.length_cons, List.length_nil]; omega
      simp only [sendAll, Chan.send, hlt, if_true, ih _ hc1, List.length_append,
        List.length_cons, List.length_nil, List.append_assoc, List.singleton_append]
      constructor
      · rintro ⟨h1, h2⟩
        exact ⟨by omega, h2⟩
      · rintro ⟨h1, h2⟩
        exact ⟨by omega, h2⟩
    · simp only [sendAll, Chan.send, hlt, if_false, List.length_cons]
      constructor
      · intro h; cases h
      · rintro ⟨h1, _⟩; omega

theorem sendAll_eq_none (ups : List UpstreamPtr) (c : Chan UpstreamPtr)
    (hc : c.buf.length ≤ c.cap) :
    sendAll c ups = none ↔ c.cap < c.buf.length + ups.length := by
  cases hs : sendAll c ups with
  | none =>
    simp only [true_iff]
    by_contra hle
    have := (sendAll_eq_some ups c { buf := c.buf ++ ups, cap := c.cap } hc).2 ⟨by omega, rfl⟩
    rw [hs] at this
    cases this
  | some c1 =>
    have := ((sendAll_eq_some ups c c1 hc).1 hs).1
    simp only [false_iff, reduceCtorEq]
    omega

theorem ptrs_length (srv : ServiceConfig) : srv.ptrs.length = srv.Upstreams.length := by
  simp [ServiceConfig.ptrs]

theorem ptrs_map_idx (srv : ServiceConfig) :
    srv.ptrs.map UpstreamPtr.idx = List.range srv.Upstreams.length := by
  simp only [ServiceConfig.ptrs, List.map_map]
  rw [← List.enum_map_fst]
  rfl

theorem ptrs_map_obj (srv : ServiceConfig) : srv.ptrs.map UpstreamPtr.obj = srv.Upstreams := by
  simp [ServiceConfig.ptrs, Function.comp_def]

theorem ptrs_nodup (srv : ServiceConfig) : srv.ptrs.Nodup := by
  apply List.Nodup.of_map UpstreamPtr.idx
  rw [ptrs_map_idx]
  exact List.nodup_range _

theorem NewServiceHandler_eq_some (srv : ServiceConfig) (h : ServiceHandler) :
    NewServiceHandler srv = some h ↔
      srv.Upstreams.length ≤ 100 ∧
        h = { srv := srv, freeUpstreams := { buf := srv.ptrs, cap := 100 }, cache := [] } := by
  unfold NewServiceHandler
  cases hs : sendAll (Chan.make 100) srv.ptrs with
  | none =>
    have := (sendAll_eq_none _ _ (by simp [Chan.make])).1 hs
    simp only [Chan.make, List.length_nil, zero_add, ptrs_length] at this
    simp only [reduceCtorEq, false_iff, not_and]
    intro h1; omega
  | some c =>
    have := (sendAll_eq_some _ _ _ (by simp [Chan.make])).1 hs
    simp only [Chan.make, List.length_nil, zero_add, ptrs_length, List.nil_append] at this
    simp only [Option.some.injEq, this.1, true_and, this.2]
    exact eq_comm

theorem NewServiceHandler_eq_none (srv : ServiceConfig) :
    NewServiceHandler srv = none ↔ 100 < srv.Upstreams.length := by
  unfold NewServiceHandler
  cases hs : sendAll (Chan.make 100) srv.ptrs with
  | none =>
    have := (sendAll_eq_none _ _ (by simp [Chan.make])).1 hs
    simpa [Chan.make, ptrs_length] using this
  | some c =>
    have := ((sendAll_eq_some _ _ _ (by simp [Chan.make])).1 hs).1
    simp only [Chan.make, List.length_nil, zero_add, ptrs_length] at this
    simp only [reduceCtorEq, false_iff]
    omega

theorem Inv_init {srv : ServiceConfig} {h : ServiceHandler} (hn : NewServiceHandler srv = some h) :
    Inv srv h := by
  obtain ⟨hle, rfl⟩ := (NewServiceHandler_eq_some srv h).1 hn
  exact
    { srv_eq := rfl
      cap_eq := rfl
      small := hle
      keys_nodup := List.nodup_nil
      sid_eq := by intro e he; cases he
      ups_nodup := by simpa using ptrs_nodup srv
      ups_mem := by intro u hu; simpa using hu }

/-! ## The invariant is kept by every operation -/

theorem perm_mapDelete {β : Type} {m : List (String × β)} (hn : (mapKeys m).Nodup)
    {k : String} {v : β} (hm : (k, v) ∈ m) : m.Perm ((k, v) :: mapDelete m k) := by
  induction m with
  | nil => cases hm
  | cons e m ih =>
    simp only [mapKeys, List.map_cons, List.nodup_cons] at hn
    rcases List.mem_cons.1 hm with he | hm1
    · subst he
      have hk : mapGet m k = none := mapGet_eq_none_iff.2 hn.1
      have : mapDelete ((k, v) :: m) k = m := by
        simp only [mapDelete, List.filter_cons, decide_True, Bool.not_true]
        exact mapDelete_of_not_mem hk
      rw [this]
    · have hne : e.1 ≠ k := fun he => hn.1 (he ▸ List.mem_map_of_mem Prod.fst hm1)
      have : mapDelete (e :: m) k = e :: mapDelete m k := by
        simp [mapDelete, List.filter_cons, hne]
      rw [this]
      exact ((ih hn.2 hm1).cons e).trans (List.Perm.swap _ _ _)

theorem Inv_delete {srv : ServiceConfig} {h : ServiceHandler} (hi : Inv srv h) (k : String) :
    Inv srv { h with cache := mapDelete h.cache k } := by
  have hsub : (mapDelete h.cache k).Sublist h.cache := mapKeys_mapDelete_sublist _ _
  have hsub2 : (h.freeUpstreams.buf ++ (mapDelete h.cache k).map (fun e => e.2.up)).Sublist
      (h.freeUpstreams.buf ++ h.cache.map (fun e => e.2.up)) :=
    List.Sublist.append (List.Sublist.refl _) (hsub.map _)
  exact
    { srv_eq := hi.srv_eq
      cap_eq := hi.cap_eq
      small := hi.small
      keys_nodup := hi.keys_nodup.sublist (hsub.map _)
      sid_eq := fun e he => hi.sid_eq e (hsub.subset he)
      ups_nodup := hi.ups_nodup.sublist hsub2
      ups_mem := fun u hu => hi.ups_mem u (hsub2.subset hu) }

theorem perm_release {h : ServiceHandler} (hn : (mapKeys h.cache).Nodup) {k : String}
    {d : DownStream} (hg : mapGet h.cache k = some d) :
    (h.freeUpstreams.buf ++ h.cache.map (fun e => e.2.up)).Perm
      ((h.freeUpstreams.buf ++ [d.up]) ++ (mapDelete h.cache k).map (fun e => e.2.up)) := by
  have hp := (perm_mapDelete hn (mem_of_mapGet hg)).map (fun e => e.2.up)
  simp only [List.map_cons] at hp
  rw [List.append_assoc, List.singleton_append]
  exact List.Perm.append_left _ hp

theorem Inv_release {srv : ServiceConfig} {h : ServiceHandler} (hi : Inv srv h) {k : String}
    {d : DownStream} (hg : mapGet h.cache k = some d) :
    Inv srv { h with cache := mapDelete h.cache k,
                     freeUpstreams := { h.freeUpstreams with buf := h.freeUpstreams.buf ++ [d.up] } } := by
  have hd := Inv_delete hi k
  have hp := perm_release hi.keys_nodup hg
  exact
    { srv_eq := hi.srv_eq
      cap_eq := hi.cap_eq
      small := hi.small
      keys_nodup := hd.keys_nodup
      sid_eq := hd.sid_eq
      ups_nodup := hp.nodup_iff.1 hi.ups_nodup
      ups_mem := fun u hu => hi.ups_mem u (hp.mem_iff.2 hu) }

theorem sid_of_mapGet {srv : ServiceConfig} {h : ServiceHandler} (hi : Inv srv h) {k : String}
    {d : DownStream} (hg : mapGet h.cache k = some d) : d.sid = k :=
  hi.sid_eq (k, d) (mem_of_mapGet hg)

theorem Inv_closeDownstream {srv : ServiceConfig} {h : ServiceHandler} (hi : Inv srv h)
    {k : String} {d : DownStream} (hg : mapGet h.cache k = some d) :
    Inv srv (closeDownstream h d).1 := by
  have hs := sid_of_mapGet hi hg
  unfold closeDownstream
  simp only [Chan.send, hs]
  split_ifs with hlt
  · exact Inv_release hi hg
  · exact Inv_delete hi k

theorem Inv_setUsed {srv : ServiceConfig} {h : ServiceHandler} (hi : Inv srv h) (k : String)
    (b : Bool) : Inv srv (setUsed h k b) := by
  have hk : mapKeys (setUsed h k b).cache = mapKeys h.cache := by
    simp only [setUsed, mapKeys, List.map_map]
    apply List.map_congr_left
    intro e _
    by_cases he : e.1 = k <;> simp [he]
  have hu : (setUsed h k b).cache.map (fun e => e.2.up) = h.cache.map (fun e => e.2.up) := by
    simp only [setUsed, List.map_map]
    apply List.map_congr_left
    intro e _
    by_cases he : e.1 = k <;> simp [he]
  exact
    { srv_eq := hi.srv_eq
      cap_eq := hi.cap_eq
      small := hi.small
      keys_nodup := hk ▸ hi.keys_nodup
      sid_eq := by
        intro e he
        simp only [setUsed, List.mem_map] at he
        obtain ⟨e0, he0, rfl⟩ := he
        have := hi.sid_eq e0 he0
        by_cases hek : e0.1 = k <;> simp [hek, this]
      ups_nodup := by rw [hu]; exact hi.ups_nodup
      ups_mem := by rw [hu]; exact hi.ups_mem }

theorem Inv_lease {srv : ServiceConfig} {h : ServiceHandler} (hi : Inv srv h)
    {up : UpstreamPtr} {rest : List UpstreamPtr} (hb : h.freeUpstreams.buf = up :: rest)
    {d : DownStream} (hup : d.up = up) (hk : mapGet h.cache d.sid = none) :
    Inv srv { h with freeUpstreams := { h.freeUpstreams with buf := rest },
                     cache := h.cache ++ [(d.sid, d)] } := by
  have hp : (rest ++ (h.cache ++ [(d.sid, d)]).map (fun e => e.2.up)).Perm
      (h.freeUpstreams.buf ++ h.cache.map (fun e => e.2.up)) := by
    rw [hb]
    simp only [List.map_append, List.map_cons, List.map_nil, hup, List.cons_append]
    rw [← List.append_assoc]
    exact List.perm_append_singleton _ _
  exact
    { srv_eq := hi.srv_eq
      cap_eq := hi.cap_eq
      small := hi.small
      keys_nodup := by
        simp only [mapKeys, List.map_append, List.map_cons, List.map_nil]
        apply List.Nodup.append hi.keys_nodup (List.nodup_singleton _)
        intro x hx hx1
        simp only [List.mem_singleton] at hx1
        subst hx1
        exact (mapGet_eq_none_iff.1 hk) hx
      sid_eq := by
        intro e he
        rcases List.mem_append.1 he with he | he
        · exact hi.sid_eq e he
        · simp only [List.mem_singleton] at he
          subst he; rfl
      ups_nodup := hp.nodup_iff.2 hi.ups_nodup
      ups_mem := fun u hu => hi.ups_mem u (hp.mem_iff.1 hu) }

theorem Inv_createDownstream {srv : ServiceConfig} {h : ServiceHandler} (hi : Inv srv h)
    (req : Request) (env : Env) : Inv srv (createDownstream h req env).1 := by
  unfold createDownstream
  cases hc : req.Cookie "lbc_session_id" with
  | some sid =>
    simp only
    cases hg : mapGet h.cache sid.Value with
    | none => exact hi
    | some down =>
      simp only
      cases hcl : req.Cookie "lbc_close" with
      | none => exact hi
      | some c =>
        simp only
        have := Inv_closeDownstream hi hg
        cases hcd : closeDownstream h down with
        | mk p1 r =>
          rw [hcd] at this
          cases r <;> exact this
  | none =>
    simp only
    cases hr : h.freeUpstreams.recv with
    | none => exact hi
    | some r =>
      obtain ⟨up, c⟩ := r
      simp only
      unfold Chan.recv at hr
      cases hb : h.freeUpstreams.buf with
      | nil => simp [hb] at hr
      | cons up1 rest =>
        simp only [hb, Option.some.injEq, Prod.mk.injEq] at hr
        obtain ⟨rfl, rfl⟩ := hr
        have hd := Inv_delete hi (randString env)
        have hk : mapGet (mapDelete h.cache (randString env)) (randString env) = none := by
          rw [mapGet_mapDelete]; simp
        exact Inv_lease (h := { h with cache := mapDelete h.cache (randString env) })
          (d := { up := up1, used := false, sid := randString env, startTime := env.now })
          hd hb rfl hk

theorem Inv_reclaim {srv : ServiceConfig} (ds : List DownStream) :
    ∀ {p : ServiceHandler}, Inv srv p → (∀ d ∈ ds, mapGet p.cache d.sid = some d) →
      (ds.map DownStream.sid).Nodup → Inv srv (reclaim p ds).1 := by
  induction ds with
  | nil => intro p hi _ _; exact hi
  | cons d ds ih =>
    intro p hi hg hn
    simp only [List.map_cons, List.nodup_cons] at hn
    have hgd := hg d (List.mem_cons_self _ _)
    unfold reclaim
    simp only [Chan.send]
    split_ifs with hlt
    · apply ih (Inv_release hi hgd)
      · intro d1 hd1
        have hne : d1.sid ≠ d.sid := by
          intro he
          exact hn.1 (he ▸ List.mem_map_of_mem DownStream.sid hd1)
        simp only [mapGet_mapDelete, hne, if_false]
        exact hg d1 (List.mem_cons_of_mem _ hd1)
      · exact hn.2
    · exact Inv_delete hi d.sid

theorem Inv_visit {srv : ServiceConfig} {h : ServiceHandler} (hi : Inv srv h)
    (now : String → Int) :
    Inv srv { h with cache := h.cache.map (fun e => (e.1, (sweepVisit (now e.1) e.2).1)) } := by
  have hv : ∀ (t : Int) (d : DownStream),
      (sweepVisit t d).1.up = d.up ∧ (sweepVisit t d).1.sid = d.sid := by
    intro t d
    unfold sweepVisit
    split_ifs <;> exact ⟨rfl, rfl⟩
  have hu : (h.cache.map (fun e => (e.1, (sweepVisit (now e.1) e.2).1))).map (fun e => e.2.up)
      = h.cache.map (fun e => e.2.up) := by
    simp only [List.map_map]
    apply List.map_congr_left
    intro e _
    exact (hv _ _).1
  exact
    { srv_eq := hi.srv_eq
      cap_eq := hi.cap_eq
      small := hi.small
      keys_nodup := by
        simp only [mapKeys, List.map_map]
        exact hi.keys_nodup
      sid_eq := by
        intro e he
        simp only [List.mem_map] at he
        obtain ⟨e0, he0, rfl⟩ := he
        simpa [(hv (now e0.1) e0.2).2] using hi.sid_eq e0 he0
      ups_nodup := by rw [hu]; exact hi.ups_nodup
      ups_mem := by rw [hu]; exact hi.ups_mem }

theorem sweepVisit_sid (t : Int) (d : DownStream) : (sweepVisit t d).1.sid = d.sid := by
  unfold sweepVisit
  split_ifs <;> rfl

theorem sweepVisit_up (t : Int) (d : DownStream) : (sweepVisit t d).1.up = d.up := by
  unfold sweepVisit
  split_ifs <;> rfl

theorem sweepVisit_startTime (t : Int) (d : DownStream) :
    (sweepVisit t d).1.startTime = d.startTime := by
  unfold sweepVisit
  split_ifs <;> rfl

theorem sweepDel_sids {srv : ServiceConfig} {h : ServiceHandler} (hi : Inv srv h)
    (now : String → Int) {order : List (String × DownStream)} (hp : order.Perm h.cache) :
    (sweepDel now order).map DownStream.sid =
      mapKeys (order.filter (fun e => (sweepVisit (now e.1) e.2).2)) := by
  simp only [sweepDel, mapKeys, List.map_map]
  apply List.map_congr_left
  intro e he
  have hmem : e ∈ h.cache := hp.mem_iff.1 (List.mem_of_mem_filter he)
  simpa [sweepVisit_sid] using hi.sid_eq e hmem

theorem sweepDel_nodup {srv : ServiceConfig} {h : ServiceHandler} (hi : Inv srv h)
    (now : String → Int) {order : List (String × DownStream)} (hp : order.Perm h.cache) :
    ((sweepDel now order).map DownStream.sid).Nodup := by
  rw [sweepDel_sids hi now hp]
  have h1 : (mapKeys order).Nodup := (hp.map Prod.fst).nodup_iff.2 hi.keys_nodup
  exact h1.sublist ((List.filter_sublist _).map _)

theorem sweepDel_cached {srv : ServiceConfig} {h : ServiceHandler} (hi : Inv srv h)
    (now : String → Int) {order : List (String × DownStream)} (hp : order.Perm h.cache) :
    ∀ d ∈ sweepDel now order,
      mapGet (h.cache.map (fun e => (e.1, (sweepVisit (now e.1) e.2).1))) d.sid = some d := by
  intro d hd
  simp only [sweepDel, List.mem_map, List.mem_filter] at hd
  obtain ⟨e, ⟨he, _⟩, rfl⟩ := hd
  have hmem : e ∈ h.cache := hp.mem_iff.1 he
  have hs : (sweepVisit (now e.1) e.2).1.sid = e.1 := by
    rw [sweepVisit_sid]; exact hi.sid_eq e hmem
  rw [hs]
  apply mapGet_of_mem (Inv_visit hi now).keys_nodup
  exact List.mem_map.2 ⟨e, hmem, rfl⟩

theorem Inv_sweep {srv : ServiceConfig} {h : ServiceHandler} (hi : Inv srv h)
    (now : String → Int) {order : List (String × DownStream)} (hp : order.Perm h.cache) :
    Inv srv (sweep h now order).1 := by
  unfold sweep
  exact Inv_reclaim _ (Inv_visit hi now) (sweepDel_cached hi now hp) (sweepDel_nodup hi now hp)

theorem Reachable.inv {srv : ServiceConfig} {h : ServiceHandler} (hr : Reachable srv h) :
    Inv srv h := by
  induction hr with
  | init hn => exact Inv_init hn
  | create req env _ ih => exact Inv_createDownstream ih req env
  | close k d _ hg ih => exact Inv_closeDownstream ih hg
  | sweep now order _ hp ih => exact Inv_sweep ih now hp
  | mark k b _ ih => exact Inv_setUsed ih k b

theorem ReachableUnique.reachable {srv : ServiceConfig} {h : ServiceHandler}
    (hr : ReachableUnique srv h) : Reachable srv h := by
  induction hr with
  | init hn => exact Reachable.init hn
  | create req env _ _ ih => exact Reachable.create req env ih
  | close k d _ hg ih => exact Reachable.close k d ih hg
  | sweep now order _ hp ih => exact Reachable.sweep now order ih hp
  | mark k b _ ih => exact Reachable.mark k b ih

/-- In a state satisfying the invariant, the pool and the cache together hold at most as
many endpoints as are configured. -/
theorem Inv.count_le {srv : ServiceConfig} {h : ServiceHandler} (hi : Inv srv h) :
    h.freeUpstreams.buf.length + h.cache.length ≤ srv.Upstreams.length := by
  have hsp := List.subperm_of_subset hi.ups_nodup (fun u hu => hi.ups_mem u hu)
  have := hsp.length_le
  simpa [ptrs_length] using this

theorem Inv.pool_not_full {srv : ServiceConfig} {h : ServiceHandler} (hi : Inv srv h)
    {k : String} {d : DownStream} (hg : mapGet h.cache k = some d) :
    h.freeUpstreams.buf.length < h.freeUpstreams.cap := by
  have h1 := hi.count_le
  have h2 := hi.small
  have h3 : 0 < h.cache.length := List.length_pos_of_mem (mem_of_mapGet hg)
  rw [hi.cap_eq]
  omega

/-! ## Time -/

theorem tdiv_Second (d : Int) :
    Int.tdiv d Second = if 0 ≤ d then d / 1000000000 else -((-d) / 1000000000) := by
  split_ifs with h
  · exact Int.tdiv_eq_ediv h (by decide)
  · have h1 : (0 : Int) ≤ -d := by omega
    have := Int.tdiv_eq_ediv h1 (show (0 : Int) ≤ Second by decide)
    rw [Int.neg_tdiv] at this
    unfold Second at this ⊢
    omega

/-- The mixed-number test of `secondsGt` is the comparison of the nanosecond counts. -/
theorem secondsGt_iff (d c : Int) : secondsGt d c = true ↔ d > c * Second := by
  have hq := tdiv_Second d
  have hr := Int.tmod_def d Second
  simp only [secondsGt, Bool.or_eq_true, Bool.and_eq_true, decide_eq_true_eq]
  rw [hr, hq]
  unfold Second
  split_ifs with h <;> omega

/-- Saturation in `Sub` does not change the outcome of a comparison with a threshold of
at most a million seconds. -/
theorem elapsed_gt_iff (now start c : Int) (hc : 0 ≤ c) (hc2 : c ≤ 1000000) :
    secondsGt (timeSub now start) c = true ↔ now - start > c * Second := by
  rw [secondsGt_iff]
  unfold timeSub maxDuration minDuration Second
  split_ifs <;> omega

/-- A lease is marked by the sweep exactly under the two timeout conditions. -/
theorem sweepVisit_marked (t : Int) (d : DownStream) :
    (sweepVisit t d).2 = true ↔
      (d.used = true ∧ t - d.startTime > 300 * Second) ∨
        (d.used = false ∧ t - d.startTime > 120 * Second) := by
  have h1 := elapsed_gt_iff t d.startTime 300 (by decide) (by decide)
  have h2 := elapsed_gt_iff t d.startTime 120 (by decide) (by decide)
  unfold sweepVisit
  cases hu : d.used
  · by_cases c2 : secondsGt (timeSub t d.startTime) 120 = true <;> simp [c2, ← h2]
  · by_cases c1 : secondsGt (timeSub t d.startTime) 300 = true <;> simp [c1, ← h1]

theorem sweepVisit_unmarked (t : Int) (d : DownStream) (h : (sweepVisit t d).2 = false) :
    (sweepVisit t d).1 = d := by
  unfold sweepVisit at h ⊢
  split_ifs at h ⊢
  rfl

theorem sweepVisit_marked_used (t : Int) (d : DownStream) (h : (sweepVisit t d).2 = true) :
    (sweepVisit t d).1 = { d with used := false } := by
  unfold sweepVisit at h ⊢
  split_ifs at h ⊢ with c1 c2
  · rfl
  · have hu : d.used = false := by
      cases hd : d.used
      · rfl
      · simp [hd] at c2
    cases d
    simp_all

/-! ## Exact results of the releasing operations -/

theorem closeDownstream_eq {srv : ServiceConfig} {h : ServiceHandler} (hi : Inv srv h)
    {k : String} {d : DownStream} (hg : mapGet h.cache k = some d) :
    closeDownstream h d =
      ({ h with cache := mapDelete h.cache k,
                freeUpstreams := { h.freeUpstreams with buf := h.freeUpstreams.buf ++ [d.up] } },
        .returned ()) := by
  have hs := sid_of_mapGet hi hg
  have hlt := hi.pool_not_full hg
  simp [closeDownstream, Chan.send, hs, hlt]

theorem length_mapDelete {β : Type} {m : List (String × β)} (hn : (mapKeys m).Nodup)
    {k : String} {v : β} (hg : mapGet m k = some v) :
    (mapDelete m k).length + 1 = m.length := by
  have := (perm_mapDelete hn (mem_of_mapGet hg)).length_eq
  simpa using this.symm

theorem foldl_mapDelete {β : Type} (ks : List String) (m : List (String × β)) :
    ks.foldl (fun c k => mapDelete c k) m = m.filter (fun e => !decide (e.1 ∈ ks)) := by
  induction ks generalizing m with
  | nil => simp
  | cons k ks ih =>
    rw [List.foldl_cons, ih, mapDelete, List.filter_filter]
    apply List.filter_congr
    intro e _
    by_cases h1 : e.1 = k <;> by_cases h2 : e.1 ∈ ks <;> simp [h1, h2]

theorem reclaim_eq (ds : List DownStream) :
    ∀ (p : ServiceHandler), p.freeUpstreams.buf.length + ds.length ≤ p.freeUpstreams.cap →
      reclaim p ds =
        ({ p with cache := (ds.map DownStream.sid).foldl (fun c k => mapDelete c k) p.cache,
                  freeUpstreams :=
                    { p.freeUpstreams with buf := p.freeUpstreams.buf ++ ds.map DownStream.up } },
          .returned ()) := by
  induction ds with
  | nil => intro p _; simp [reclaim]
  | cons d ds ih =>
    intro p hle
    simp only [List.length_cons] at hle
    have hlt : p.freeUpstreams.buf.length < p.freeUpstreams.cap := by omega
    unfold reclaim
    simp only [Chan.send, hlt, if_true]
    rw [ih]
    · simp
    · simp only [List.length_append, List.length_cons, List.length_nil]
      omega

theorem mapGet_filter_key {β : Type} (m : List (String × β)) (q : String → Bool) (k : String) :
    mapGet (m.filter (fun e => q e.1)) k = if q k = true then mapGet m k else none := by
  induction m with
  | nil => simp [mapGet]
  | cons e m ih =>
    by_cases he : e.1 = k
    · subst he
      by_cases hq : q e.1 = true
      · simp [List.filter_cons, hq, mapGet]
      · have hq1 : q e.1 = false := by simpa using hq
        simp [List.filter_cons, hq1, ih]
    · by_cases hq : q e.1 = true
      · simp [List.filter_cons, hq, mapGet, he, ih]
      · have hq1 : q e.1 = false := by simpa using hq
        simp [List.filter_cons, hq1, ih, mapGet, he]

theorem mapGet_map_val {β : Type} (m : List (String × β)) (f : String → β → β) (k : String) :
    mapGet (m.map (fun e => (e.1, f e.1 e.2))) k = (mapGet m k).map (f k) := by
  induction m with
  | nil => simp [mapGet]
  | cons e m ih =>
    by_cases he : e.1 = k
    · subst he
      simp [mapGet]
    · simp [mapGet, he, ih]

theorem Inv.up_inj {srv : ServiceConfig} {h : ServiceHandler} (hi : Inv srv h)
    {e1 e2 : String × DownStream} (h1 : e1 ∈ h.cache) (h2 : e2 ∈ h.cache)
    (he : e1.2.up = e2.2.up) : e1 = e2 :=
  List.inj_on_of_nodup_map (List.Nodup.of_append_right hi.ups_nodup) h1 h2 he

theorem Inv.up_not_pooled {srv : ServiceConfig} {h : ServiceHandler} (hi : Inv srv h)
    {e : String × DownStream} (he : e ∈ h.cache) : e.2.up ∉ h.freeUpstreams.buf := by
  intro hb
  have := List.disjoint_of_nodup_append hi.ups_nodup hb
  exact this (List.mem_map_of_mem (fun e => e.2.up) he)

theorem Inv.key_inj {srv : ServiceConfig} {h : ServiceHandler} (hi : Inv srv h)
    {e : String × DownStream} (he : e ∈ h.cache) {d : DownStream}
    (hg : mapGet h.cache e.1 = some d) : e.2 = d := by
  have := mapGet_of_mem hi.keys_nodup (k := e.1) (v := e.2) he
  rw [hg] at this
  exact (Option.some.inj this).symm

theorem sweepDel_length_le (now : String → Int) (order : List (String × DownStream)) :
    (sweepDel now order).length ≤ order.length := by
  simp only [sweepDel, List.length_map]
  exact List.length_filter_le _ _

/-- In a state satisfying the invariant a sweep runs to completion; its result is the
cache without the marked leases and the pool followed by their endpoints. -/
theorem sweep_eq {srv : ServiceConfig} {h : ServiceHandler} (hi : Inv srv h)
    (now : String → Int) {order : List (String × DownStream)} (hp : order.Perm h.cache) :
    sweep h now order =
      ({ h with
          cache := (h.cache.map (fun e => (e.1, (sweepVisit (now e.1) e.2).1))).filter
            (fun e => !decide (e.1 ∈ (sweepDel now order).map DownStream.sid)),
          freeUpstreams := { h.freeUpstreams with
            buf := h.freeUpstreams.buf ++ (sweepDel now order).map DownStream.up } },
        .returned ()) := by
  unfold sweep
  have hle : h.freeUpstreams.buf.length + (sweepDel now order).length ≤ h.freeUpstreams.cap := by
    have h1 := sweepDel_length_le now order
    have h2 := hp.length_eq
    have h3 := hi.count_le
    have h4 := hi.small
    rw [hi.cap_eq]
    omega
  have := reclaim_eq (sweepDel now order)
    { h with cache := h.cache.map (fun e => (e.1, (sweepVisit (now e.1) e.2).1)) } hle
  simp only
  rw [this, foldl_mapDelete]

theorem sweepDel_sid_mem {srv : ServiceConfig} {h : ServiceHandler} (hi : Inv srv h)
    (now : String → Int) {order : List (String × DownStream)} (hp : order.Perm h.cache)
    {k : String} {d : DownStream} (hg : mapGet h.cache k = some d) :
    k ∈ (sweepDel now order).map DownStream.sid ↔ (sweepVisit (now k) d).2 = true := by
  rw [sweepDel_sids hi now hp]
  simp only [mapKeys, List.mem_map, List.mem_filter]
  constructor
  · rintro ⟨e, ⟨he, hm⟩, rfl⟩
    have := hi.key_inj (hp.mem_iff.1 he) hg
    rw [← this]; exact hm
  · intro hm
    exact ⟨(k, d), ⟨hp.mem_iff.2 (mem_of_mapGet hg), hm⟩, rfl⟩

theorem sweepDel_up_mem {srv : ServiceConfig} {h : ServiceHandler} (hi : Inv srv h)
    (now : String → Int) {order : List (String × DownStream)} (hp : order.Perm h.cache)
    {k : String} {d : DownStream} (hg : mapGet h.cache k = some d) :
    d.up ∈ (sweepDel now order).map DownStream.up ↔ (sweepVisit (now k) d).2 = true := by
  simp only [sweepDel, List.map_map, List.mem_map, List.mem_filter, Function.comp_apply,
    sweepVisit_up]
  constructor
  · rintro ⟨e, ⟨he, hm⟩, hup⟩
    have := hi.up_inj (hp.mem_iff.1 he) (mem_of_mapGet hg) hup
    subst this
    exact hm
  · intro hm
    exact ⟨(k, d), ⟨hp.mem_iff.2 (mem_of_mapGet hg), hm⟩, rfl⟩

/-! ## Conservation -/

theorem count_reclaim {srv : ServiceConfig} (ds : List DownStream) :
    ∀ {p : ServiceHandler}, Inv srv p → (∀ d ∈ ds, mapGet p.cache d.sid = some d) →
      (ds.map DownStream.sid).Nodup →
      (reclaim p ds).1.freeUpstreams.buf.length + (reclaim p ds).1.cache.length =
        p.freeUpstreams.buf.length + p.cache.length := by
  induction ds with
  | nil => intro p _ _ _; rfl
  | cons d ds ih =>
    intro p hi hg hn
    simp only [List.map_cons, List.nodup_cons] at hn
    have hgd := hg d (List.mem_cons_self _ _)
    have hlt := hi.pool_not_full hgd
    have hlen := length_mapDelete hi.keys_nodup hgd
    unfold reclaim
    simp only [Chan.send, hlt, if_true]
    rw [ih (Inv_release hi hgd)]
    · simp only [List.length_append, List.length_cons, List.length_nil]
      omega
    · intro d1 hd1
      have hne : d1.sid ≠ d.sid := by
        intro he
        exact hn.1 (he ▸ List.mem_map_of_mem DownStream.sid hd1)
      simp only [mapGet_mapDelete, hne, if_false]
      exact hg d1 (List.mem_cons_of_mem _ hd1)
    · exact hn.2

theorem count_closeDownstream {srv : ServiceConfig} {h : ServiceHandler} (hi : Inv srv h)
    {k : String} {d : DownStream} (hg : mapGet h.cache k = some d) :
    (closeDownstream h d).1.freeUpstreams.buf.length + (closeDownstream h d).1.cache.length =
      h.freeUpstreams.buf.length + h.cache.length := by
  have hlen := length_mapDelete hi.keys_nodup hg
  rw [closeDownstream_eq hi hg]
  simp only [List.length_append, List.length_cons, List.length_nil]
  omega

theorem count_createDownstream {srv : ServiceConfig} {h : ServiceHandler} (hi : Inv srv h)
    (req : Request) (env : Env)
    (hu : req.Cookie "lbc_session_id" = none → mapGet h.cache (randString env) = none) :
    (createDownstream h req env).1.freeUpstreams.buf.length +
        (createDownstream h req env).1.cache.length =
      h.freeUpstreams.buf.length + h.cache.length := by
  unfold createDownstream
  cases hc : req.Cookie "lbc_session_id" with
  | some sid =>
    simp only
    cases hg : mapGet h.cache sid.Value with
    | none => rfl
    | some down =>
      simp only
      cases hcl : req.Cookie "lbc_close" with
      | none => rfl
      | some c =>
        simp only
        have := count_closeDownstream hi hg
        cases hcd : closeDownstream h down with
        | mk p1 r =>
          rw [hcd] at this
          cases r <;> exact this
  | none =>
    simp only
    unfold Chan.recv
    cases hb : h.freeUpstreams.buf with
    | nil => simp [hb]
    | cons up rest =>
      simp only [mapSet, mapDelete_of_not_mem (hu hc), List.length_append, List.length_cons,
        List.length_nil]
      omega

theorem NewServiceHandler_cfgAB : NewServiceHandler cfgAB = some hAB := by decide

theorem createDownstream_hAB_env1 :
    createDownstream hAB reqNew env1 =
      (hA1, .returned (some ("1_1", { up := upA, used := false, sid := "1_1", startTime := 1000 }))) := by
  decide

theorem createDownstream_hA1_env1 :
    createDownstream hA1 reqNew env1 =
      (hDup, .returned (some ("1_1", { up := upB, used := false, sid := "1_1", startTime := 1000 }))) := by
  decide

/-- C1 (amended): in every state reached from the state built by `NewServiceHandler`
through `createDownstream` calls, `closeDownstream` calls, sweeps and `used` assignments
in which every generated session id is new (not yet a key of the cache), the number of
endpoints in `freeUpstreams` plus the number of cache entries is the number of
configured upstreams. -/
theorem conservation_unique (srv : ServiceConfig) (h : ServiceHandler)
    (hr : ReachableUnique srv h) :
    h.freeUpstreams.buf.length + h.cache.length = srv.Upstreams.length := by
  induction hr with
  | init hn =>
    obtain ⟨_, rfl⟩ := (NewServiceHandler_eq_some srv _).1 hn
    simp [ptrs_length]
  | create req env hr1 hu ih =>
    rw [count_createDownstream hr1.reachable.inv req env hu, ih]
  | close k d hr1 hg ih =>
    rw [count_closeDownstream hr1.reachable.inv hg, ih]
  | sweep now order hr1 hp ih =>
    have hi := hr1.reachable.inv
    unfold sweep
    rw [count_reclaim _ (Inv_visit hi now) (sweepDel_cached hi now hp) (sweepDel_nodup hi now hp)]
    simpa using ih
  | mark k b hr1 ih =>
    simpa [setUsed] using ih

/-- C1 (amended), at the state after one first-contact request on `cfgAB`. -/
theorem conservation_unique_witness :
    hA1.freeUpstreams.buf.length + hA1.cache.length = cfgAB.Upstreams.length :=
  conservation_unique cfgAB hA1
    (ReachableUnique.create reqNew env1 (ReachableUnique.init NewServiceHandler_cfgAB)
      (fun _ => rfl))

/-- C1 fails as stated: two first-contact requests that are given the same session id
(`randString` reads the same clock value and the same random number) leave one cache
entry and an empty pool for two configured upstreams. -/
theorem conservation_fails_on_repeated_sid :
    NewServiceHandler cfgAB = some hAB ∧
      (createDownstream hAB reqNew env1).1 = hA1 ∧
      (createDownstream hA1 reqNew env1).1 = hDup ∧
      Reachable cfgAB hDup ∧
      hDup.freeUpstreams.buf.length + hDup.cache.length ≠ cfgAB.Upstreams.length := by
  refine ⟨by decide, by decide, by decide, ?_, by decide⟩
  have h1 : Reachable cfgAB hA1 :=
    Reachable.create reqNew env1 (Reachable.init NewServiceHandler_cfgAB)
  exact Reachable.create reqNew env1 h1

/-! ## Exclusivity -/

/-- C2: in every state reached from the state built by `NewServiceHandler` through
`createDownstream` calls, `closeDownstream` calls, sweeps and `used` assignments, no
endpoint is both in `freeUpstreams` and referenced by a cached lease, no endpoint is
referenced by two cached leases, and no endpoint occurs twice in `freeUpstreams`; all of
them are configured endpoints. -/
theorem exclusivity (srv : ServiceConfig) (h : ServiceHandler) (hr : Reachable srv h) :
    (∀ e ∈ h.cache, e.2.up ∉ h.freeUpstreams.buf) ∧
      (h.cache.map (fun e => e.2.up)).Nodup ∧
      (∀ e1 ∈ h.cache, ∀ e2 ∈ h.cache, e1.2.up = e2.2.up → e1 = e2) ∧
      h.freeUpstreams.buf.Nodup ∧
      (∀ u ∈ h.freeUpstreams.buf ++ h.cache.map (fun e => e.2.up), u ∈ srv.ptrs) := by
  have hi := hr.inv
  exact ⟨fun e he => hi.up_not_pooled he, List.Nodup.of_append_right hi.ups_nodup,
    fun e1 h1 e2 h2 he => hi.up_inj h1 h2 he, List.Nodup.of_append_left hi.ups_nodup,
    hi.ups_mem⟩

/-- C2, at the state after one first-contact request on `cfgAB`. -/
theorem exclusivity_witness :
    (∀ e ∈ hA1.cache, e.2.up ∉ hA1.freeUpstreams.buf) ∧
      (hA1.cache.map (fun e => e.2.up)).Nodup ∧
      (∀ e1 ∈ hA1.cache, ∀ e2 ∈ hA1.cache, e1.2.up = e2.2.up → e1 = e2) ∧
      hA1.freeUpstreams.buf.Nodup ∧
      (∀ u ∈ hA1.freeUpstreams.buf ++ hA1.cache.map (fun e => e.2.up), u ∈ cfgAB.ptrs) :=
  exclusivity cfgAB hA1
    (Reachable.create reqNew env1 (Reachable.init NewServiceHandler_cfgAB))

/-! ## Sweep classification -/

theorem reachable_hA1B2 : Reachable cfgAB hA1B2 :=
  Reachable.mark "2_2" true
    (Reachable.create reqNew env2
      (Reachable.create reqNew env1 (Reachable.init NewServiceHandler_cfgAB)))

theorem sweep_cache_get {srv : ServiceConfig} {h : ServiceHandler} (hi : Inv srv h)
    (now : String → Int) {order : List (String × DownStream)} (hp : order.Perm h.cache)
    {k : String} {d : DownStream} (hg : mapGet h.cache k = some d) :
    mapGet (sweep h now order).1.cache k =
      if (sweepVisit (now k) d).2 = true then none else some d := by
  rw [sweep_eq hi now hp]
  simp only
  rw [mapGet_filter_key _ (fun k1 => !decide (k1 ∈ (sweepDel now order).map DownStream.sid)),
    mapGet_map_val h.cache (fun k1 d1 => (sweepVisit (now k1) d1).1), hg]
  by_cases hm : (sweepVisit (now k) d).2 = true
  · have := (sweepDel_sid_mem hi now hp hg).2 hm
    simp [hm, this]
  · have hn : k ∉ (sweepDel now order).map DownStream.sid :=
      fun hk => hm ((sweepDel_sid_mem hi now hp hg).1 hk)
    have hf : (sweepVisit (now k) d).2 = false := by simpa using hm
    simp [hf, hn, sweepVisit_unmarked _ _ hf]

theorem sweep_pool_mem {srv : ServiceConfig} {h : ServiceHandler} (hi : Inv srv h)
    (now : String → Int) {order : List (String × DownStream)} (hp : order.Perm h.cache)
    {k : String} {d : DownStream} (hg : mapGet h.cache k = some d) :
    d.up ∈ (sweep h now order).1.freeUpstreams.buf ↔ (sweepVisit (now k) d).2 = true := by
  rw [sweep_eq hi now hp]
  simp only [List.mem_append]
  have hnp : d.up ∉ h.freeUpstreams.buf := hi.up_not_pooled (mem_of_mapGet hg)
  rw [sweepDel_up_mem hi now hp hg]
  constructor
  · rintro (hb | hm)
    · exact absurd hb hnp
    · exact hm
  · intro hm; exact Or.inr hm

/-- C4: in a reachable state, one sweep, reading the clock as `now k` when it examines
the lease under key `k` and visiting the cache in any order, completes; the lease `d`
cached under `k` is removed from the cache with `d.up` returned to `freeUpstreams` if and
only if (`d.used` and `now k - d.startTime > 300 s`) or (not `d.used` and
`now k - d.startTime > 120 s`); a lease reclaimed in the first case is put in `del` with
`used` forced to false; every other lease stays cached with all fields unchanged and its
endpoint is not in the pool; in particular a lease with elapsed time exactly 120 s
(idle) or exactly 300 s (in use) is left untouched. -/
theorem sweep_classification (srv : ServiceConfig) (h : ServiceHandler) (hr : Reachable srv h)
    (now : String → Int) (order : List (String × DownStream)) (hp : order.Perm h.cache)
    (k : String) (d : DownStream) (hg : mapGet h.cache k = some d) :
    (sweep h now order).2 = .returned () ∧
      (sweep h now order).1.freeUpstreams.buf =
        h.freeUpstreams.buf ++ (sweepDel now order).map DownStream.up ∧
      ((mapGet (sweep h now order).1.cache k = none ∧
          d.up ∈ (sweep h now order).1.freeUpstreams.buf) ↔
        ((d.used = true ∧ now k - d.startTime > 300 * Second) ∨
          (d.used = false ∧ now k - d.startTime > 120 * Second))) ∧
      (d.used = true → now k - d.startTime > 300 * Second →
        { d with used := false } ∈ sweepDel now order) ∧
      (¬ ((d.used = true ∧ now k - d.startTime > 300 * Second) ∨
          (d.used = false ∧ now k - d.startTime > 120 * Second)) →
        mapGet (sweep h now order).1.cache k = some d ∧
          d.up ∉ (sweep h now order).1.freeUpstreams.buf) ∧
      (d.used = false → now k - d.startTime = 120 * Second →
        mapGet (sweep h now order).1.cache k = some d ∧
          d.up ∉ (sweep h now order).1.freeUpstreams.buf) ∧
      (d.used = true → now k - d.startTime = 300 * Second →
        mapGet (sweep h now order).1.cache k = some d ∧
          d.up ∉ (sweep h now order).1.freeUpstreams.buf) := by
  have hi := hr.inv
  have hget := sweep_cache_get hi now hp hg
  have hpool := sweep_pool_mem hi now hp hg
  have hmark := sweepVisit_marked (now k) d
  have hkeep : ¬ ((d.used = true ∧ now k - d.startTime > 300 * Second) ∨
        (d.used = false ∧ now k - d.startTime > 120 * Second)) →
      mapGet (sweep h now order).1.cache k = some d ∧
        d.up ∉ (sweep h now order).1.freeUpstreams.buf := by
    intro hc
    have hm : ¬ (sweepVisit (now k) d).2 = true := fun hm => hc (hmark.1 hm)
    exact ⟨by rw [hget, if_neg hm], fun hin => hm (hpool.1 hin)⟩
  refine ⟨by rw [sweep_eq hi now hp], by rw [sweep_eq hi now hp], ?_, ?_, hkeep, ?_, ?_⟩
  · rw [← hmark]
    constructor
    · rintro ⟨_, hin⟩
      exact hpool.1 hin
    · intro hm
      exact ⟨by rw [hget, if_pos hm], hpool.2 hm⟩
  · intro hu ht
    have hm : (sweepVisit (now k) d).2 = true := hmark.2 (Or.inl ⟨hu, ht⟩)
    simp only [sweepDel, List.mem_map, List.mem_filter]
    exact ⟨(k, d), ⟨hp.mem_iff.2 (mem_of_mapGet hg), hm⟩, sweepVisit_marked_used _ _ hm⟩
  · intro hu ht
    apply hkeep
    rintro (⟨hu1, _⟩ | ⟨_, ht1⟩)
    · rw [hu] at hu1; cases hu1
    · rw [ht] at ht1; exact lt_irrefl _ ht1
  · intro hu ht
    apply hkeep
    rintro (⟨_, ht1⟩ | ⟨hu1, _⟩)
    · rw [ht] at ht1; exact lt_irrefl _ ht1
    · rw [hu] at hu1; cases hu1

/-- C4, on `hA1B2` with the clock at 120 s and 1 ns after the start of the idle lease:
the idle lease is reclaimed. -/
theorem sweep_classification_witness :
    mapGet (sweep hA1B2 (fun _ => 120000001001) hA1B2.cache).1.cache "1_1" = none ∧
      upA ∈ (sweep hA1B2 (fun _ => 120000001001) hA1B2.cache).1.freeUpstreams.buf :=
  (sweep_classification cfgAB hA1B2 reachable_hA1B2 (fun _ => 120000001001) hA1B2.cache
    (List.Perm.refl _) "1_1" { up := upA, used := false, sid := "1_1", startTime := 1000 }
    rfl).2.2.1.2 (Or.inr ⟨rfl, by decide⟩)

/-! ## Pool construction -/

theorem Reachable.cap_eq {srv : ServiceConfig} {h : ServiceHandler} (hr : Reachable srv h) :
    h.freeUpstreams.cap = 100 :=
  hr.inv.cap_eq

/-- C10 (amended): for every configuration with at most 100 upstreams,
`NewServiceHandler` returns a handler whose pool has capacity 100, whatever the number
of upstreams, and holds exactly the configured upstreams in configuration order, with an
empty cache; the capacity is 100 in every later state. -/
theorem NewServiceHandler_pool (srv : ServiceConfig) (hn : srv.Upstreams.length ≤ 100) :
    ∃ h, NewServiceHandler srv = some h ∧
      h.freeUpstreams.cap = 100 ∧
      h.freeUpstreams.buf = srv.ptrs ∧
      h.freeUpstreams.buf.map UpstreamPtr.obj = srv.Upstreams ∧
      h.freeUpstreams.buf.map UpstreamPtr.idx = List.range srv.Upstreams.length ∧
      h.cache = [] ∧
      ∀ h1, Reachable srv h1 → h1.freeUpstreams.cap = 100 := by
  refine ⟨{ srv := srv, freeUpstreams := { buf := srv.ptrs, cap := 100 }, cache := [] },
    (NewServiceHandler_eq_some srv _).2 ⟨hn, rfl⟩, rfl, rfl, ptrs_map_obj srv, ptrs_map_idx srv,
    rfl, fun h1 hr => hr.cap_eq⟩

/-- C10 (amended), for the two upstreams of `cfgAB`. -/
theorem NewServiceHandler_pool_witness :
    ∃ h, NewServiceHandler cfgAB = some h ∧
      h.freeUpstreams.cap = 100 ∧
      h.freeUpstreams.buf = cfgAB.ptrs ∧
      h.freeUpstreams.buf.map UpstreamPtr.obj = cfgAB.Upstreams ∧
      h.freeUpstreams.buf.map UpstreamPtr.idx = List.range cfgAB.Upstreams.length ∧
      h.cache = [] ∧
      ∀ h1, Reachable cfgAB h1 → h1.freeUpstreams.cap = 100 :=
  NewServiceHandler_pool cfgAB (by decide)

/-- C10 fails as stated: with two upstreams the pool has capacity 100, not 2, and with
101 upstreams `NewServiceHandler` blocks on the 101st send and never returns. -/
theorem pool_capacity_is_not_upstream_count :
    NewServiceHandler cfgAB = some hAB ∧
      hAB.freeUpstreams.cap = 100 ∧ cfgAB.Upstreams.length = 2 ∧
      cfg101.Upstreams.length = 101 ∧ NewServiceHandler cfg101 = none := by
  refine ⟨by decide, rfl, rfl, by decide, ?_⟩
  exact (NewServiceHandler_eq_none cfg101).2 (by decide)

/-! ## First contact -/

/-- C9 (amended): for a request without `lbc_session_id` cookie on a state with a
non-empty pool, `createDownstream` takes the head `e` of `freeUpstreams`, returns a new
lease with `up = e`, `used = false`, `startTime` the current time and the generated
`sid`, and caches it under that `sid`; leases cached under other ids are unaltered, and
when the generated `sid` is not already a key the cache is the old cache with the new
entry added (nothing is replaced).  On an empty pool the call blocks and changes
nothing. -/
theorem createDownstream_first_contact (h : ServiceHandler) (req : Request) (env : Env)
    (hc : req.Cookie "lbc_session_id" = none) :
    (∀ e rest, h.freeUpstreams.buf = e :: rest →
      (createDownstream h req env).2 = .returned (some (randString env,
          { up := e, used := false, sid := randString env, startTime := env.now })) ∧
        (createDownstream h req env).1.freeUpstreams = { h.freeUpstreams with buf := rest } ∧
        (createDownstream h req env).1.srv = h.srv ∧
        mapGet (createDownstream h req env).1.cache (randString env) =
          some { up := e, used := false, sid := randString env, startTime := env.now } ∧
        (∀ k, k ≠ randString env →
          mapGet (createDownstream h req env).1.cache k = mapGet h.cache k) ∧
        (mapGet h.cache (randString env) = none →
          (createDownstream h req env).1.cache = h.cache ++ [(randString env,
            { up := e, used := false, sid := randString env, startTime := env.now })])) ∧
      (h.freeUpstreams.buf = [] → createDownstream h req env = (h, .blocked)) := by
  constructor
  · intro e rest hb
    have hcd : createDownstream h req env =
        ({ h with freeUpstreams := { h.freeUpstreams with buf := rest },
                  cache := mapSet h.cache (randString env)
                    { up := e, used := false, sid := randString env, startTime := env.now } },
          .returned (some (randString env,
            { up := e, used := false, sid := randString env, startTime := env.now }))) := by
      simp [createDownstream, hc, Chan.recv, hb]
    rw [hcd]
    refine ⟨rfl, rfl, rfl, ?_, ?_, ?_⟩
    · simp [mapGet_mapSet]
    · intro k hk
      simp [mapGet_mapSet, hk]
    · intro hfresh
      simp [mapSet, mapDelete_of_not_mem hfresh]
  · intro hb
    simp [createDownstream, hc, Chan.recv, hb]

/-- C9 (amended), at the first request on `hAB`: upstream A, the head of the pool, is
leased under `1_1`. -/
theorem createDownstream_first_contact_witness :
    (createDownstream hAB reqNew env1).2 = .returned (some ("1_1", leaseA)) ∧
      (createDownstream hAB reqNew env1).1.freeUpstreams = { buf := [upB], cap := 100 } :=
  ⟨((createDownstream_first_contact hAB reqNew env1 rfl).1 upA [upB] rfl).1,
    ((createDownstream_first_contact hAB reqNew env1 rfl).1 upA [upB] rfl).2.1⟩

/-- C9 fails as stated: a first-contact request whose generated id `1_1` is already a
key replaces the lease cached under it (bound to A) by the new one (bound to B). -/
theorem first_contact_replaces_lease :
    reqNew.Cookie "lbc_session_id" = none ∧
      (createDownstream hAB reqNew env1).1 = hA1 ∧
      hA1.freeUpstreams.buf = [upB] ∧
      mapGet hA1.cache "1_1" = some leaseA ∧
      randString env1 = "1_1" ∧
      mapGet (createDownstream hA1 reqNew env1).1.cache "1_1" =
        some { up := upB, used := false, sid := "1_1", startTime := 1000 } ∧
      (createDownstream hA1 reqNew env1).1.cache.length = hA1.cache.length := by
  decide

/-! ## Request handling: lookups in the service table -/

theorem mapGet_store (p : LoadBalancer) (host : String) (srv : ServiceHandler) (host1 : String) :
    mapGet (p.store host srv).services host1 =
      if host1 = host then (mapGet p.services host).map (fun _ => srv)
      else mapGet p.services host1 := by
  have hf : (fun e : String × ServiceHandler => if e.1 = host then (e.1, srv) else e) =
      fun e => (e.1, (fun k v => if k = host then srv else v) e.1 e.2) := by
    funext e
    by_cases he : e.1 = host <;> simp [he]
  simp only [LoadBalancer.store, hf]
  rw [mapGet_map_val p.services (fun k v => if k = host then srv else v)]
  by_cases h1 : host1 = host
  · subst h1
    simp
  · simp [h1]

theorem mapGet_store_same (p : LoadBalancer) (host : String) (srv : ServiceHandler)
    (hp : mapGet p.services host = some srv) (host1 : String) :
    mapGet (p.store host srv).services host1 = mapGet p.services host1 := by
  rw [mapGet_store]
  by_cases h1 : host1 = host
  · subst h1
    simp [hp]
  · simp [h1]

/-! ## Session not found -/

/-- C6: for every handler state and every request whose `lbc_session_id` cookie is not a
key of the cache (with or without `lbc_close`), `createDownstream` returns nil and leaves
cache and pool unchanged, and `ServeHTTP` answers with status 500, calls no upstream and
leaves every handler as it was. -/
theorem session_not_found (h : ServiceHandler) (req : Request) (env : Env) (sid : Cookie)
    (hc : req.Cookie "lbc_session_id" = some sid) (hg : mapGet h.cache sid.Value = none) :
    createDownstream h req env = (h, .returned none) ∧
      ∀ (p : LoadBalancer) (io : Outcomes), mapGet p.services req.Host = some h →
        status (p.ServeHTTP req env io).rw = some 500 ∧
          (p.ServeHTTP req env io).rw =
            [.WriteHeader 500, .WriteHeader 500, .Write "fail to find downstream"] ∧
          (p.ServeHTTP req env io).calls = [] ∧
          (p.ServeHTTP req env io).exit = .returned ∧
          ∀ host1, mapGet (p.ServeHTTP req env io).lb.services host1 =
            mapGet p.services host1 := by
  have hcd : createDownstream h req env = (h, .returned none) := by
    simp [createDownstream, hc, hg]
  refine ⟨hcd, ?_⟩
  intro p io hp
  have hs : p.ServeHTTP req env io =
      { lb := p.store req.Host h,
        rw := [.WriteHeader 500, .WriteHeader 500, .Write "fail to find downstream"],
        calls := [], exit := .returned } := by
    simp [LoadBalancer.ServeHTTP, hp, hcd, LoadBalancer.printError]
  rw [hs]
  exact ⟨rfl, rfl, rfl, rfl, fun host1 => mapGet_store_same p req.Host h hp host1⟩

/-- C6, for a request on `hA1` carrying the unknown session id `9_9`. -/
theorem session_not_found_witness :
    createDownstream hA1 (reqSid "9_9") env2 = (hA1, .returned none) ∧
      status (lbA1.ServeHTTP (reqSid "9_9") env2 ioOk).rw = some 500 ∧
      (lbA1.ServeHTTP (reqSid "9_9") env2 ioOk).calls = [] :=
  ⟨(session_not_found hA1 (reqSid "9_9") env2 { Name := "lbc_session_id", Value := "9_9" }
      rfl rfl).1,
    ((session_not_found hA1 (reqSid "9_9") env2 { Name := "lbc_session_id", Value := "9_9" }
      rfl rfl).2 lbA1 ioOk rfl).1,
    ((session_not_found hA1 (reqSid "9_9") env2 { Name := "lbc_session_id", Value := "9_9" }
      rfl rfl).2 lbA1 ioOk rfl).2.2.1⟩

/-! ## Explicit close -/

/-- C5: in a reachable state whose cache holds the lease `d` under the id of the
`lbc_session_id` cookie, whatever `d.used`, `createDownstream` on a request that also
carries `lbc_close` returns nil, removes that id from the cache and appends `d.up` to
`freeUpstreams`, leaving every other cache entry and the endpoints already pooled
unchanged; `ServeHTTP` makes no upstream call; and if the pool was empty before, the next
`createDownstream` without session cookie obtains exactly `d.up`. -/
theorem explicit_close (srv : ServiceConfig) (h : ServiceHandler) (hr : Reachable srv h)
    (req : Request) (env : Env) (sid cl : Cookie) (d : DownStream)
    (hc : req.Cookie "lbc_session_id" = some sid) (hcl : req.Cookie "lbc_close" = some cl)
    (hg : mapGet h.cache sid.Value = some d) :
    (createDownstream h req env).2 = .returned none ∧
      (createDownstream h req env).1.cache = mapDelete h.cache sid.Value ∧
      mapGet (createDownstream h req env).1.cache sid.Value = none ∧
      (∀ k, k ≠ sid.Value → mapGet (createDownstream h req env).1.cache k = mapGet h.cache k) ∧
      (createDownstream h req env).1.freeUpstreams.buf = h.freeUpstreams.buf ++ [d.up] ∧
      (∀ (p : LoadBalancer) (io : Outcomes), mapGet p.services req.Host = some h →
        (p.ServeHTTP req env io).calls = [] ∧
          (p.ServeHTTP req env io).exit = .returned ∧
          status (p.ServeHTTP req env io).rw = some 500 ∧
          mapGet (p.ServeHTTP req env io).lb.services req.Host =
            some (createDownstream h req env).1 ∧
          ∀ host1, host1 ≠ req.Host →
            mapGet (p.ServeHTTP req env io).lb.services host1 = mapGet p.services host1) ∧
      (h.freeUpstreams.buf = [] → ∀ (req2 : Request) (env2 : Env),
        req2.Cookie "lbc_session_id" = none →
        (createDownstream (createDownstream h req env).1 req2 env2).2 =
          .returned (some (randString env2,
            { up := d.up, used := false, sid := randString env2, startTime := env2.now }))) := by
  have hi := hr.inv
  have hcd : createDownstream h req env =
      ({ h with cache := mapDelete h.cache sid.Value,
                freeUpstreams := { h.freeUpstreams with buf := h.freeUpstreams.buf ++ [d.up] } },
        .returned none) := by
    simp [createDownstream, hc, hcl, hg, closeDownstream_eq hi hg]
  refine ⟨by rw [hcd], by rw [hcd], ?_, ?_, by rw [hcd], ?_, ?_⟩
  · rw [hcd]
    simp [mapGet_mapDelete]
  · intro k hk
    rw [hcd]
    simp [mapGet_mapDelete, hk]
  · intro p io hp
    have hs : p.ServeHTTP req env io =
        { lb := p.store req.Host (createDownstream h req env).1,
          rw := [.WriteHeader 500, .WriteHeader 500, .Write "fail to find downstream"],
          calls := [], exit := .returned } := by
      simp [LoadBalancer.ServeHTTP, hp, hcd, LoadBalancer.printError]
    rw [hs]
    refine ⟨rfl, rfl, rfl, ?_, ?_⟩
    · simp [mapGet_store, hp]
    · intro host1 h1
      simp [mapGet_store, h1]
  · intro hb req2 env2 hc2
    rw [hcd]
    simp [createDownstream, hc2, Chan.recv, hb]

/-- C5, on `hA1B2` (empty pool): closing the session `2_2`, whose lease is in use,
releases upstream B, and the next first-contact request is bound to B. -/
theorem explicit_close_witness :
    (createDownstream hA1B2 (reqClose "2_2") env1).2 = .returned none ∧
      mapGet (createDownstream hA1B2 (reqClose "2_2") env1).1.cache "2_2" = none ∧
      (createDownstream hA1B2 (reqClose "2_2") env1).1.freeUpstreams.buf = [upB] ∧
      (createDownstream (createDownstream hA1B2 (reqClose "2_2") env1).1 reqNew env2).2 =
        .returned (some ("2_2", { up := upB, used := false, sid := "2_2", startTime := 2000 })) :=
  have hw := explicit_close cfgAB hA1B2 reachable_hA1B2 (reqClose "2_2") env1
    { Name := "lbc_session_id", Value := "2_2" } { Name := "lbc_close", Value := "1" }
    { up := upB, used := true, sid := "2_2", startTime := 2000 } rfl rfl rfl
  ⟨hw.1, hw.2.2.1, hw.2.2.2.2.1, hw.2.2.2.2.2.2 rfl reqNew env2 rfl⟩

/-! ## Request handling: the forwarding part -/

theorem mapGet_setUsed (h : ServiceHandler) (k : String) (b : Bool) (k1 : String) :
    mapGet (setUsed h k b).cache k1 =
      (mapGet h.cache k1).map (fun d => if k1 = k then { d with used := b } else d) := by
  have hf : (fun e : String × DownStream => if e.1 = k then (e.1, { e.2 with used := b }) else e) =
      fun e => (e.1, (fun k1 d => if k1 = k then { d with used := b } else d) e.1 e.2) := by
    funext e
    by_cases he : e.1 = k <;> simp [he]
  simp only [setUsed, hf]
  rw [mapGet_map_val h.cache (fun k1 d => if k1 = k then { d with used := b } else d)]

theorem bindings_setUsed (h : ServiceHandler) (k : String) (b : Bool) :
    bindings (setUsed h k b) = bindings h := by
  simp only [bindings, setUsed, List.map_map]
  apply List.map_congr_left
  intro e _
  by_cases he : e.1 = k <;> simp [he]

theorem mapGet_lbSetUsed (p : LoadBalancer) (host k : String) (b : Bool) (host1 : String) :
    mapGet (p.setUsed host k b).services host1 =
      (mapGet p.services host1).map (fun srv => if host1 = host then setUsed srv k b else srv) := by
  have hf : (fun e : String × ServiceHandler =>
        if e.1 = host then (e.1, setUsed e.2 k b) else e) =
      fun e => (e.1, (fun h1 v => if h1 = host then setUsed v k b else v) e.1 e.2) := by
    funext e
    by_cases he : e.1 = host <;> simp [he]
  simp only [LoadBalancer.setUsed, hf]
  rw [mapGet_map_val p.services (fun h1 v => if h1 = host then setUsed v k b else v)]

/-- The state `forward` leaves: the lease is marked in use and, unless the execution
panics at line 160, marked unused again. -/
theorem forward_lb (p : LoadBalancer) (req : Request) (io : Outcomes) (k : String)
    (down : DownStream) :
    (p.forward req io k down).lb =
      if io.reqBodyErr = none ∧ io.newRequestErr ≠ none then p.setUsed req.Host k true
      else (p.setUsed req.Host k true).setUsed req.Host k false := by
  unfold LoadBalancer.forward LoadBalancer.printError
  cases io.reqBodyErr <;> cases io.newRequestErr <;> cases io.doErr <;>
    cases io.respBodyNil <;> cases io.respBodyErr <;> simp

theorem forward_exit (p : LoadBalancer) (req : Request) (io : Outcomes) (k : String)
    (down : DownStream) :
    (p.forward req io k down).exit =
      if io.reqBodyErr = none ∧ io.newRequestErr ≠ none then .panicked else .returned := by
  unfold LoadBalancer.forward LoadBalancer.printError
  cases io.reqBodyErr <;> cases io.newRequestErr <;> cases io.doErr <;>
    cases io.respBodyNil <;> cases io.respBodyErr <;> simp

theorem forward_calls (p : LoadBalancer) (req : Request) (io : Outcomes) (k : String)
    (down : DownStream) :
    (p.forward req io k down).calls =
      if io.reqBodyErr = none ∧ io.newRequestErr = none then
        [upstreamCall down.up.obj.Addr req.RequestURI]
      else [] := by
  unfold LoadBalancer.forward LoadBalancer.printError
  cases io.reqBodyErr <;> cases io.newRequestErr <;> cases io.doErr <;>
    cases io.respBodyNil <;> cases io.respBodyErr <;> simp

theorem forward_status (p : LoadBalancer) (req : Request) (io : Outcomes) (k : String)
    (down : DownStream) :
    status (p.forward req io k down).rw =
      if io.reqBodyErr = none ∧ io.newRequestErr ≠ none then none
      else if io.reqBodyErr = none ∧ io.doErr = none ∧ io.respBodyNil = false ∧
          io.respBodyErr = none then some 200
      else some 500 := by
  unfold LoadBalancer.forward LoadBalancer.printError
  cases io.reqBodyErr <;> cases io.newRequestErr <;> cases io.doErr <;>
    cases io.respBodyNil <;> cases io.respBodyErr <;> simp [status]

/-! ## Affinity -/

theorem createDownstream_found (h : ServiceHandler) (req : Request) (env : Env) (S : String)
    (d : DownStream) (hc : (req.Cookie "lbc_session_id").map Cookie.Value = some S)
    (hcl : req.Cookie "lbc_close" = none) (hg : mapGet h.cache S = some d) :
    createDownstream h req env = (h, .returned (some (S, d))) := by
  cases hck : req.Cookie "lbc_session_id" with
  | none => simp [hck] at hc
  | some sid =>
    have hv : sid.Value = S := by simpa [hck] using hc
    simp [createDownstream, hck, hv, hg, hcl]

theorem mapGet_forward (p : LoadBalancer) (req : Request) (io : Outcomes) (k : String)
    (down : DownStream) (h : ServiceHandler) (hp : mapGet p.services req.Host = some h) :
    ∃ b1 b2, mapGet (p.forward req io k down).lb.services req.Host =
      some (if b1 = true then setUsed h k b2 else setUsed (setUsed h k true) k b2) := by
  rw [forward_lb]
  split_ifs with hc
  · exact ⟨true, true, by simp [mapGet_lbSetUsed, hp]⟩
  · exact ⟨false, false, by simp [mapGet_lbSetUsed, hp]⟩

/-! ### The host of the forwarded request -/

theorem unescape_of_no_percent (s : List Char) (h : ∀ c ∈ s, c ≠ '%') : unescape s = s := by
  induction s with
  | nil => rfl
  | cons c s ih =>
    have hc : c ≠ '%' := h c (List.mem_cons_self _ _)
    rw [unescape.eq_2]
    · rw [ih (fun x hx => h x (List.mem_cons_of_mem _ hx))]
    · intro a b t he _
      exact hc he

theorem cutBefore_append (c : Char) (a b : List Char) (h : ∀ x ∈ a, x ≠ c) :
    cutBefore c (a ++ b) = a ++ cutBefore c b := by
  unfold cutBefore
  apply List.takeWhile_append_of_pos
  intro x hx
  simpa using h x hx

theorem cutBefore_of_not_mem (c : Char) (a : List Char) (h : ∀ x ∈ a, x ≠ c) :
    cutBefore c a = a := by
  have := cutBefore_append c a [] h
  simpa [cutBefore] using this

theorem afterLast_of_not_mem (c : Char) (a : List Char) (h : ∀ x ∈ a, x ≠ c) :
    afterLast c a = a := by
  unfold afterLast
  have := cutBefore_of_not_mem c a.reverse (fun x hx => h x (List.mem_reverse.1 hx))
  unfold cutBefore at this
  rw [this, List.reverse_reverse]

/-- For a plain upstream address and a request target that begins with `/`, the URL built
at line 159 has the upstream address as its host. -/
theorem urlHost_plain (addr uri : String) (ha : plainAddr addr = true)
    (hu : uri.data.head? = some '/') :
    urlHost ("http://" ++ addr ++ uri) = addr := by
  simp only [plainAddr, Bool.and_eq_true, List.all_eq_true, Bool.not_eq_true',
    decide_eq_false_iff_not] at ha
  obtain ⟨hall, hlast⟩ := ha
  have hne : ∀ c, c ∈ ['/', '?', '#', '@', '%'] → ∀ x ∈ addr.data, x ≠ c := by
    intro c hc x hx he
    exact hall x hx (he ▸ hc)
  obtain ⟨t, ht⟩ : ∃ t, uri.data = '/' :: t := by
    cases hd : uri.data with
    | nil => simp [hd] at hu
    | cons c t =>
      simp only [hd, List.head?_cons, Option.some.injEq] at hu
      exact ⟨t, by rw [hu]⟩
  have hdata : ("http://" ++ addr ++ uri).data = "http://".data ++ (addr.data ++ '/' :: t) := by
    simp [String.data_append, ht]
  have h1 : cutBefore '#' ("http://".data ++ (addr.data ++ '/' :: t)) =
      "http://".data ++ (addr.data ++ '/' :: cutBefore '#' t) := by
    rw [cutBefore_append _ _ _ (by decide), cutBefore_append _ _ _ (hne '#' (by decide))]
    simp [cutBefore]
  have h2 : cutBefore '?' ("//".data ++ (addr.data ++ '/' :: cutBefore '#' t)) =
      "//".data ++ (addr.data ++ '/' :: cutBefore '?' (cutBefore '#' t)) := by
    rw [cutBefore_append _ _ _ (by decide), cutBefore_append _ _ _ (hne '?' (by decide))]
    simp [cutBefore]
  have h3 : cutBefore '/' (addr.data ++ '/' :: cutBefore '?' (cutBefore '#' t)) = addr.data := by
    rw [cutBefore_append _ _ _ (hne '/' (by decide))]
    simp [cutBefore]
  have h4 : removeEmptyPort addr.data = addr.data := by
    unfold removeEmptyPort
    rw [if_neg hlast]
  unfold urlHost
  simp only [hdata, h1]
  have hd5 : List.drop 5 ("http://".data ++ (addr.data ++ '/' :: cutBefore '#' t)) =
      "//".data ++ (addr.data ++ '/' :: cutBefore '#' t) := rfl
  rw [hd5, h2]
  have hd2 : List.drop 2 ("//".data ++ (addr.data ++ '/' :: cutBefore '?' (cutBefore '#' t))) =
      addr.data ++ '/' :: cutBefore '?' (cutBefore '#' t) := rfl
  rw [hd2, h3, afterLast_of_not_mem _ _ (hne '@' (by decide)),
    unescape_of_no_percent _ (hne '%' (by decide)), h4]

/-- The host of the URL built from an address and a request target, evaluated: an
origin-form target keeps the address; the target `a:@evil.example` turns the address
into user information; an absolute-form target is glued to the port. -/
theorem urlHost_examples :
    urlHost "http://10.0.0.1:80/page?x=1#top" = "10.0.0.1:80" ∧
      urlHost "http://10.0.0.1:80a:@evil.example" = "evil.example" ∧
      urlHost "http://10.0.0.1:80http://svc.local/page" = "10.0.0.1:80http" := by
  decide

/-- One request of an established session: when the body is read and `http.NewRequest`
succeeds it is given to `client.Do` once, as the request built from the address of the
leased upstream (sent to that address when it is plain and the target begins with
`/`); when the body cannot be read it is answered 500 and not forwarded; pool and
bindings stay as they were. -/
theorem serve_found (p : LoadBalancer) (h : ServiceHandler) (S : String) (d : DownStream)
    (req : Request) (env : Env) (io : Outcomes)
    (hp : mapGet p.services req.Host = some h) (hg : mapGet h.cache S = some d)
    (hc : (req.Cookie "lbc_session_id").map Cookie.Value = some S)
    (hcl : req.Cookie "lbc_close" = none) :
    (io.reqBodyErr = none → io.newRequestErr = none →
        (p.ServeHTTP req env io).calls = [upstreamCall d.up.obj.Addr req.RequestURI] ∧
          (plainAddr d.up.obj.Addr = true → req.RequestURI.data.head? = some '/' →
            (p.ServeHTTP req env io).calls.map UpstreamCall.host = [d.up.obj.Addr])) ∧
      (io.reqBodyErr ≠ none →
        (p.ServeHTTP req env io).calls = [] ∧ status (p.ServeHTTP req env io).rw = some 500) ∧
      ∃ h1 d1, mapGet (p.ServeHTTP req env io).lb.services req.Host = some h1 ∧
        h1.freeUpstreams = h.freeUpstreams ∧ bindings h1 = bindings h ∧
        mapGet h1.cache S = some d1 ∧ d1.up = d.up ∧ d1.sid = d.sid ∧
        d1.startTime = d.startTime := by
  have hcd := createDownstream_found h req env S d hc hcl hg
  have hs : p.ServeHTTP req env io = (p.store req.Host h).forward req io S d := by
    simp [LoadBalancer.ServeHTTP, hp, hcd]
  have hp1 : mapGet (p.store req.Host h).services req.Host = some h := by
    rw [mapGet_store_same p req.Host h hp]; exact hp
  rw [hs]
  refine ⟨?_, ?_, ?_⟩
  · intro h1 h2
    rw [forward_calls]
    simp only [h1, h2, and_self, if_true, true_and, List.map_cons, List.map_nil]
    intro ha hu
    simp [upstreamCall, urlHost_plain _ _ ha hu]
  · intro h1
    rw [forward_calls, forward_status]
    simp [h1]
  · obtain ⟨b1, b2, hb⟩ := mapGet_forward (p.store req.Host h) req io S d h hp1
    refine ⟨_, { d with used := b2 }, hb, ?_, ?_, ?_, rfl, rfl, rfl⟩
    · cases b1 <;> rfl
    · cases b1 <;> simp [bindings_setUsed]
    · cases b1 <;> simp [mapGet_setUsed, hg]

theorem serveAll_found (host S : String) (h0 : ServiceHandler) (d0 : DownStream)
    (rs : List (Request × Env × Outcomes)) :
    ∀ (p : LoadBalancer) (h : ServiceHandler) (d : DownStream),
      mapGet p.services host = some h → mapGet h.cache S = some d →
      h.freeUpstreams = h0.freeUpstreams → bindings h = bindings h0 →
      d.up = d0.up → d.sid = d0.sid → d.startTime = d0.startTime →
      (∀ x ∈ rs, x.1.Host = host ∧
        (x.1.Cookie "lbc_session_id").map Cookie.Value = some S ∧
        x.1.Cookie "lbc_close" = none) →
      List.Forall₂ (fun x r =>
        (x.2.2.reqBodyErr = none → x.2.2.newRequestErr = none →
            r.calls = [upstreamCall d0.up.obj.Addr x.1.RequestURI] ∧
              (plainAddr d0.up.obj.Addr = true → x.1.RequestURI.data.head? = some '/' →
                r.calls.map UpstreamCall.host = [d0.up.obj.Addr])) ∧
          (x.2.2.reqBodyErr ≠ none → r.calls = [] ∧ status r.rw = some 500) ∧
          ∃ h1 d1, mapGet r.lb.services host = some h1 ∧
            h1.freeUpstreams = h0.freeUpstreams ∧ bindings h1 = bindings h0 ∧
            mapGet h1.cache S = some d1 ∧ d1.up = d0.up ∧ d1.sid = d0.sid ∧
            d1.startTime = d0.startTime) rs (serveAll p rs) := by
  induction rs with
  | nil => intro p h d _ _ _ _ _ _ _ _; exact List.Forall₂.nil
  | cons x rs ih =>
    intro p h d hp hg hf hb hu hsid hst hrs
    obtain ⟨hhost, hc, hcl⟩ := hrs x (List.mem_cons_self _ _)
    subst hhost
    obtain ⟨hfwd, hnot, h1, d1, hp1, hf1, hb1, hg1, hu1, hsid1, hst1⟩ :=
      serve_found p h S d x.1 x.2.1 x.2.2 hp hg hc hcl
    simp only [serveAll]
    refine List.Forall₂.cons ⟨?_, hnot, h1, d1, hp1, hf1.trans hf, hb1.trans hb, hg1,
      hu1.trans hu, hsid1.trans hsid, hst1.trans hst⟩ ?_
    · rw [← hu]; exact hfwd
    · exact ih _ h1 d1 hp1 hg1 (hf1.trans hf) (hb1.trans hb) (hu1.trans hu) (hsid1.trans hsid)
        (hst1.trans hst) (fun y hy => hrs y (List.mem_cons_of_mem _ hy))

/-- C3 (amended): if the handler of `host` caches the lease `d` under the session id `S`,
then for any number of consecutive requests to `host` carrying `lbc_session_id = S` and
no `lbc_close` (nothing else happening in between): each `createDownstream` lookup
returns the lease cached under `S` and leaves the handler unchanged; every request whose
body is read and for which `http.NewRequest` succeeds is given to `client.Do` exactly
once, as the request built from `http://` followed by the address of `d.up` and the
request target, and when that address is plain (none of `/ ? # @ %`, no final `:`) and
the request target begins with `/` the request is sent to the address of `d.up`; a
request whose body cannot be read is answered 500 and not forwarded; and after every
request the pool is unchanged and the cache holds the same keys bound to the same
upstream, `sid` and `startTime`.  In the scenario with upstreams A and B, request 1
(no cookie) goes to A with id `1_1`, request 2 (no cookie) to B, and request 3 (cookie
`1_1`) to A again. -/
theorem affinity (p : LoadBalancer) (host : String) (h : ServiceHandler) (S : String)
    (d : DownStream) (hp : mapGet p.services host = some h) (hg : mapGet h.cache S = some d)
    (rs : List (Request × Env × Outcomes))
    (hrs : ∀ x ∈ rs, x.1.Host = host ∧
      (x.1.Cookie "lbc_session_id").map Cookie.Value = some S ∧
      x.1.Cookie "lbc_close" = none) :
    (∀ x ∈ rs, createDownstream h x.1 x.2.1 = (h, .returned (some (S, d)))) ∧
      List.Forall₂ (fun x r =>
        (x.2.2.reqBodyErr = none → x.2.2.newRequestErr = none →
            r.calls = [upstreamCall d.up.obj.Addr x.1.RequestURI] ∧
              (plainAddr d.up.obj.Addr = true → x.1.RequestURI.data.head? = some '/' →
                r.calls.map UpstreamCall.host = [d.up.obj.Addr])) ∧
          (x.2.2.reqBodyErr ≠ none → r.calls = [] ∧ status r.rw = some 500) ∧
          ∃ h1 d1, mapGet r.lb.services host = some h1 ∧
            h1.freeUpstreams = h.freeUpstreams ∧ bindings h1 = bindings h ∧
            mapGet h1.cache S = some d1 ∧ d1.up = d.up ∧ d1.sid = d.sid ∧
            d1.startTime = d.startTime ∧
            ∀ y ∈ rs, createDownstream h1 y.1 y.2.1 = (h1, .returned (some (S, d1))))
        rs (serveAll p rs) ∧
      (serveAll lbAB scenario).map (fun r => (r.calls.map UpstreamCall.host, r.rw)) =
        [(["10.0.0.1:80"],
            [.SetCookie "lbc_session_id" "1_1", .WriteHeader 200, .Write "ok"]),
          (["10.0.0.2:80"],
            [.SetCookie "lbc_session_id" "2_2", .WriteHeader 200, .Write "ok"]),
          (["10.0.0.1:80"],
            [.SetCookie "lbc_session_id" "1_1", .WriteHeader 200, .Write "ok"])] := by
  refine ⟨?_, ?_, by decide⟩
  · intro x hx
    obtain ⟨_, hc, hcl⟩ := hrs x hx
    exact createDownstream_found h x.1 x.2.1 S d hc hcl hg
  · have hall := serveAll_found host S h d rs p h d hp hg rfl rfl rfl rfl rfl hrs
    refine hall.imp ?_
    rintro x r ⟨hfwd, hnot, h1, d1, hp1, hf1, hb1, hg1, hu1, hsid1, hst1⟩
    refine ⟨hfwd, hnot, h1, d1, hp1, hf1, hb1, hg1, hu1, hsid1, hst1, ?_⟩
    intro y hy
    obtain ⟨_, hc, hcl⟩ := hrs y hy
    exact createDownstream_found h1 y.1 y.2.1 S d1 hc hcl hg1

/-- C3 (amended), for two requests of the session `1_1` on `lbA1`, the second with a
failing upstream call: both lookups return the lease bound to upstream A and both
requests are given to `client.Do` for the address of A. -/
theorem affinity_witness :
    createDownstream hA1 (reqSid "1_1") env2 = (hA1, .returned (some ("1_1", leaseA))) ∧
      List.Forall₂ (fun x r =>
        (x.2.2.reqBodyErr = none → x.2.2.newRequestErr = none →
            r.calls = [upstreamCall leaseA.up.obj.Addr x.1.RequestURI] ∧
              (plainAddr leaseA.up.obj.Addr = true → x.1.RequestURI.data.head? = some '/' →
                r.calls.map UpstreamCall.host = [leaseA.up.obj.Addr])) ∧
          (x.2.2.reqBodyErr ≠ none → r.calls = [] ∧ status r.rw = some 500) ∧
          ∃ h1 d1, mapGet r.lb.services "svc.local" = some h1 ∧
            h1.freeUpstreams = hA1.freeUpstreams ∧ bindings h1 = bindings hA1 ∧
            mapGet h1.cache "1_1" = some d1 ∧ d1.up = leaseA.up ∧ d1.sid = leaseA.sid ∧
            d1.startTime = leaseA.startTime ∧
            ∀ y ∈ rsA, createDownstream h1 y.1 y.2.1 = (h1, .returned (some ("1_1", d1))))
        rsA (serveAll lbA1 rsA) :=
  have hw := affinity lbA1 "svc.local" hA1 "1_1" leaseA rfl rfl rsA (by decide)
  ⟨hw.1 (reqSid "1_1", env2, ioOk) (by decide), hw.2.1⟩

/-- C3 fails as stated: on `lbA1`, whose handler caches `leaseA` (bound to upstream A,
`10.0.0.1:80`) under `1_1`, a request of that session whose body cannot be read gets the
lease from `createDownstream` but is not forwarded at all, and a request of that session
with the request target `a:@evil.example`, every step succeeding, is given to
`client.Do` for the host `evil.example`, not for the address of A. -/
theorem session_request_not_sent_to_upstream :
    mapGet lbA1.services "svc.local" = some hA1 ∧
      mapGet hA1.cache "1_1" = some leaseA ∧
      leaseA.up.obj.Addr = "10.0.0.1:80" ∧
      createDownstream hA1 (reqSid "1_1") env2 = (hA1, .returned (some ("1_1", leaseA))) ∧
      (lbA1.ServeHTTP (reqSid "1_1") env2 ioBodyErr).calls = [] ∧
      (reqEvil.Cookie "lbc_session_id").map Cookie.Value = some "1_1" ∧
      reqEvil.Cookie "lbc_close" = none ∧
      createDownstream hA1 reqEvil env2 = (hA1, .returned (some ("1_1", leaseA))) ∧
      (lbA1.ServeHTTP reqEvil env2 ioOk).calls =
        [{ rawurl := "http://10.0.0.1:80a:@evil.example", host := "evil.example" }] := by
  decide

/-! ## Failures after a lease is resolved -/

/-- For a request of an established session, every failure other than an error of
`http.NewRequest` is answered with status 500, is not preceded by more than the one
upstream call, and leaves the lease cached, unused and bound as before, and the pool
unchanged. -/
theorem failure_keeps_session (p : LoadBalancer) (h : ServiceHandler) (S : String)
    (d : DownStream) (req : Request) (env : Env) (io : Outcomes)
    (hp : mapGet p.services req.Host = some h) (hg : mapGet h.cache S = some d)
    (hc : (req.Cookie "lbc_session_id").map Cookie.Value = some S)
    (hcl : req.Cookie "lbc_close" = none)
    (hfail : io.reqBodyErr ≠ none ∨
      (io.newRequestErr = none ∧
        (io.doErr ≠ none ∨ io.respBodyNil = true ∨ io.respBodyErr ≠ none))) :
    status (p.ServeHTTP req env io).rw = some 500 ∧
      (p.ServeHTTP req env io).exit = .returned ∧
      ∃ h1, mapGet (p.ServeHTTP req env io).lb.services req.Host = some h1 ∧
        h1.freeUpstreams = h.freeUpstreams ∧ bindings h1 = bindings h ∧
        mapGet h1.cache S = some { d with used := false } := by
  have hcd := createDownstream_found h req env S d hc hcl hg
  have hs : p.ServeHTTP req env io = (p.store req.Host h).forward req io S d := by
    simp [LoadBalancer.ServeHTTP, hp, hcd]
  have hp1 : mapGet (p.store req.Host h).services req.Host = some h := by
    rw [mapGet_store_same p req.Host h hp]; exact hp
  have hnp : ¬ (io.reqBodyErr = none ∧ io.newRequestErr ≠ none) := by
    rintro ⟨h1, h2⟩
    rcases hfail with hf | ⟨hf, _⟩
    · exact hf h1
    · exact h2 hf
  have hn200 : ¬ (io.reqBodyErr = none ∧ io.doErr = none ∧ io.respBodyNil = false ∧
      io.respBodyErr = none) := by
    rintro ⟨h1, h2, h3, h4⟩
    rcases hfail with hf | ⟨_, hf | hf | hf⟩
    · exact hf h1
    · exact hf h2
    · rw [h3] at hf; cases hf
    · exact hf h4
  rw [hs, forward_status, forward_exit, forward_lb]
  simp only [hnp, hn200, if_false]
  refine ⟨trivial, trivial, setUsed (setUsed h S true) S false, ?_, rfl, ?_, ?_⟩
  · simp [mapGet_lbSetUsed, hp1]
  · simp [bindings_setUsed]
  · simp [mapGet_setUsed, hg]

/-- C7 fails on the code: a first-contact `GET *` request on `lbAB` is bound to
upstream A under `1_1`; `http.NewRequest` fails, line 160 dereferences the nil `req2`,
and the handler panics: nothing is written to the client (no status 500, no message)
and the lease stays cached with `used = true`. -/
theorem newRequest_error_writes_nothing :
    (lbAB.ServeHTTP reqStarNew env1 ioBadURL).exit = .panicked ∧
      (lbAB.ServeHTTP reqStarNew env1 ioBadURL).rw = [] ∧
      status (lbAB.ServeHTTP reqStarNew env1 ioBadURL).rw = none ∧
      (lbAB.ServeHTTP reqStarNew env1 ioBadURL).lb.lease "svc.local" "1_1" =
        some { up := upA, used := true, sid := "1_1", startTime := 1000 } := by
  decide

/-- C8 fails on the code: for the request `GET *` of the session `1_1` on `lbA1`,
`http.NewRequest` fails and the handler panics at line 160 after `down.used = true`:
the execution ends abnormally with the lease still cached and `used = true`. -/
theorem panic_leaves_lease_in_use :
    lbA1.lease "svc.local" "1_1" = some leaseA ∧
      (lbA1.ServeHTTP reqStar env2 ioBadURL).exit = .panicked ∧
      (lbA1.ServeHTTP reqStar env2 ioBadURL).lb.lease "svc.local" "1_1" =
        some { up := upA, used := true, sid := "1_1", startTime := 1000 } := by
  decide

/-- Apart from the panic at line 160, every execution of lines 152-190 returns with the
lease marked unused. -/
theorem forward_returns_unused (p : LoadBalancer) (req : Request) (io : Outcomes) (k : String)
    (down : DownStream) (hok : io.reqBodyErr ≠ none ∨ io.newRequestErr = none) :
    (p.forward req io k down).exit = .returned ∧
      (p.forward req io k down).lb = (p.setUsed req.Host k true).setUsed req.Host k false := by
  have hnp : ¬ (io.reqBodyErr = none ∧ io.newRequestErr ≠ none) := by
    rintro ⟨h1, h2⟩
    rcases hok with hf | hf
    · exact hf h1
    · exact h2 hf
  rw [forward_exit, forward_lb]
  simp [hnp]

/-! ## Sweep: direct evaluation at the thresholds -/

/-- On `hA1B2` (idle lease started at 1000 ns, lease in use started at 2000 ns): a sweep
at exactly 120 s after the first start changes nothing; one nanosecond later it reclaims
the idle lease only; at exactly 300 s after the second start the lease in use is still
cached; one nanosecond later it is reclaimed too. -/
theorem sweep_at_thresholds :
    sweep hA1B2 (fun _ => 120000001000) hA1B2.cache = (hA1B2, .returned ()) ∧
      sweep hA1B2 (fun _ => 120000001001) hA1B2.cache =
        ({ srv := cfgAB, freeUpstreams := { buf := [upA], cap := 100 },
           cache := [("2_2", { up := upB, used := true, sid := "2_2", startTime := 2000 })] },
          .returned ()) ∧
      mapGet (sweep hA1B2 (fun _ => 300000002000) hA1B2.cache).1.cache "2_2" =
        some { up := upB, used := true, sid := "2_2", startTime := 2000 } ∧
      sweep hA1B2 (fun _ => 300000002001) hA1B2.cache =
        ({ srv := cfgAB, freeUpstreams := { buf := [upA, upB], cap := 100 }, cache := [] },
          .returned ()) := by
  decide

end lb
